import Mathlib

/-
  Shallow embedding of src/photo_organizer.py (luigman/photo-organizer).

  The filesystem is modelled as a flat association list from path strings to
  entries (regular files carry their byte content, their extraction metadata
  and their modification time; directories are bare markers).  The external
  metadata readers (PIL EXIF access and the ffmpeg probe, which the spec
  treats as opaque collaborators) are modelled as data stored on the file
  entry: the EXIF tag dictionary that img.getexif would return and the
  format-level tag dictionary that ffmpeg.probe would return.  A value of
  none models any failure of the collaborator (unreadable container, missing
  tag store).

  Machine-level caveats of the model, chosen to match the Python source:
  * datetime.strptime for the two fixed layouts is implemented character by
    character, including the 4-digit year, the 1-or-2-digit numeric fields
    and the calendar range validation performed by the datetime constructor;
  * os.makedirs(dest_dir, exist_ok=True) walks the missing ancestors in
    order and stops with NotADirectoryError at the first ancestor occupied
    by a regular file, keeping the directories created so far (exception
    state in Python persists);
  * shutil.copy2 copies content plus metadata and fails when the source is
    missing or is a directory, when the destination parent is not a
    directory, or when the destination is an existing directory;
  * os.path.getmtime is modelled as failing (OSError) unless the path is an
    accessible regular file; the scanner and the watcher only ever hand
    regular files to the engine.
-/

namespace PhotoOrg

/-- Python datetime value; only the calendar and clock fields that the
program reads are kept. -/
structure DateTime where
  year : Nat
  month : Nat
  day : Nat
  hour : Nat
  minute : Nat
  second : Nat
deriving DecidableEq, Repr

/-- A Python datetime object is always truthy, so the source check
`if not file_date` can never fire once a datetime was returned. -/
def dtTruthy (_ : DateTime) : Bool := true

instance : DecidableEq (Except String DateTime) := fun a b =>
  match a, b with
  | Except.error x, Except.error y =>
    if h : x = y then Decidable.isTrue (congrArg Except.error h)
    else Decidable.isFalse (fun hc => h (Except.error.inj hc))
  | Except.ok x, Except.ok y =>
    if h : x = y then Decidable.isTrue (congrArg Except.ok h)
    else Decidable.isFalse (fun hc => h (Except.ok.inj hc))
  | Except.error _, Except.ok _ => Decidable.isFalse (fun hc => Except.noConfusion hc)
  | Except.ok _, Except.error _ => Decidable.isFalse (fun hc => Except.noConfusion hc)

/-- Character of a decimal digit; 48 is the code of the character 0. -/
def digitChar (n : Nat) : Char := Char.ofNat (48 + n)

/-- Fuelled decimal printer (structural recursion so that the kernel can
evaluate it); the fuel n+1 always suffices for the number n. -/
def natDigitsAux : Nat → Nat → List Char
  | 0, _ => []
  | fuel + 1, n =>
    if n < 10 then [digitChar n]
    else natDigitsAux fuel (n / 10) ++ [digitChar (n % 10)]

/-- Decimal digit list of a natural number. -/
def natDigits (n : Nat) : List Char := natDigitsAux (n + 1) n

/-- Python str applied to a natural number. -/
def strNat (n : Nat) : String := String.mk (natDigits n)

/-- Zero padding to width 2, as the %m and %d strftime directives produce. -/
def pad2 (n : Nat) : String :=
  if n < 10 then String.mk ('0' :: natDigits n) else strNat n

/-- file_date.strftime of the %Y-%m-%d layout (glibc does not zero pad %Y,
matching str(file_date.year) for every year the program can meet). -/
def strftimeYMD (d : DateTime) : String :=
  strNat d.year ++ "-" ++ pad2 d.month ++ "-" ++ pad2 d.day

/-- First character of a string, if any. -/
def strHead? (s : String) : Option Char := s.data.head?

/-- Last character of a string, if any. -/
def strLast? (s : String) : Option Char := s.data.getLast?

/-- os.path.join for two POSIX path components. -/
def osPathJoin (a b : String) : String :=
  if strHead? b = some '/' then b
  else if a = "" ∨ strLast? a = some '/' then a ++ b
  else a ++ "/" ++ b

/-- os.path.basename: the part after the last slash. -/
def strBasename (p : String) : String :=
  String.mk ((p.data.reverse.takeWhile (fun c => c != '/')).reverse)

/-- The extension component of os.path.splitext: from the last dot of the
basename to the end, except that the leading dots of the basename never
start an extension. -/
def splitextExt (p : String) : String :=
  let base := (strBasename p).data
  let leading := (base.takeWhile (fun c => c == '.')).length
  match base.reverse.findIdx? (fun c => c == '.') with
  | none => ""
  | some j =>
    let i := base.length - 1 - j
    if leading ≤ i then String.mk (base.drop i) else ""

/-- Python str.lower restricted to the ASCII range, which is all the
extension tables contain (character by character so that the kernel can
evaluate it). -/
def strToLower (s : String) : String := String.mk (s.data.map Char.toLower)

/-- os.path.dirname: the part before the last slash, with trailing slashes
stripped unless the head consists of slashes only. -/
def strDirname (p : String) : String :=
  match p.data.reverse.findIdx? (fun c => c == '/') with
  | none => ""
  | some j =>
    let head := p.data.take (p.data.length - j)
    if head.all (fun c => c == '/') then String.mk head
    else String.mk ((head.reverse.dropWhile (fun c => c == '/')).reverse)

/-- The chain of paths that os.makedirs(p) creates in order: every prefix of
p that ends just before a slash, then p itself. -/
def ancestorPaths (p : String) : List String :=
  (((List.range p.data.length).filter (fun i => p.data.getD i ' ' == '/')).map
    (fun i => String.mk (p.data.take i))) ++ [p]

/-- Numeric value of a digit list. -/
def digitsVal (ds : List Char) : Nat :=
  ds.foldl (fun a c => a * 10 + (c.toNat - 48)) 0

/-- Read a run of decimal digits whose length lies between lo and hi, as the
strptime patterns for the numeric directives do. -/
def parseNum (lo hi : Nat) (cs : List Char) : Option (Nat × List Char) :=
  let ds := cs.takeWhile Char.isDigit
  if lo ≤ ds.length ∧ ds.length ≤ hi then
    some (digitsVal ds, cs.dropWhile Char.isDigit)
  else none

/-- Consume one expected literal character. -/
def expectC (c : Char) : List Char → Option (List Char)
  | [] => none
  | x :: xs => if x = c then some xs else none

/-- Length of a month, as the datetime constructor validates it. -/
def daysInMonth (y m : Nat) : Nat :=
  if m = 2 then
    (if y % 4 = 0 ∧ (y % 100 ≠ 0 ∨ y % 400 = 0) then 29 else 28)
  else if m = 4 ∨ m = 6 ∨ m = 9 ∨ m = 11 then 30 else 31

/-- Field validation performed by the datetime constructor inside
datetime.strptime. -/
def validDate (y mo d h mi s : Nat) : Bool :=
  decide (1 ≤ y ∧ y ≤ 9999 ∧ 1 ≤ mo ∧ mo ≤ 12 ∧ 1 ≤ d ∧
    d ≤ daysInMonth y mo ∧ h ≤ 23 ∧ mi ≤ 59 ∧ s ≤ 59)

/-- datetime.strptime(s, the %Y:%m:%d %H:%M:%S layout), returning none where
Python raises ValueError (source line 57). -/
def parseExifDate (s : String) : Option DateTime := do
  let (y, r) ← parseNum 4 4 s.data
  let r ← expectC ':' r
  let (mo, r) ← parseNum 1 2 r
  let r ← expectC ':' r
  let (d, r) ← parseNum 1 2 r
  let r ← expectC ' ' r
  let (h, r) ← parseNum 1 2 r
  let r ← expectC ':' r
  let (mi, r) ← parseNum 1 2 r
  let r ← expectC ':' r
  let (se, r) ← parseNum 1 2 r
  if r.isEmpty && validDate y mo d h mi se then
    some ⟨y, mo, d, h, mi, se⟩
  else none

/-- datetime.strptime(s, the %Y-%m-%dT%H:%M:%S.%fZ layout) used for the
video creation_time tag (source line 68); the microsecond digits are
validated and discarded. -/
def parseVideoDate (s : String) : Option DateTime := do
  let (y, r) ← parseNum 4 4 s.data
  let r ← expectC '-' r
  let (mo, r) ← parseNum 1 2 r
  let r ← expectC '-' r
  let (d, r) ← parseNum 1 2 r
  let r ← expectC 'T' r
  let (h, r) ← parseNum 1 2 r
  let r ← expectC ':' r
  let (mi, r) ← parseNum 1 2 r
  let r ← expectC ':' r
  let (se, r) ← parseNum 1 2 r
  let r ← expectC '.' r
  let (_f, r) ← parseNum 1 6 r
  let r ← expectC 'Z' r
  if r.isEmpty && validDate y mo d h mi se then
    some ⟨y, mo, d, h, mi, se⟩
  else none

/-- What the external metadata collaborators would report for a regular
file: the EXIF tag dictionary (none when the container cannot be opened or
has no EXIF block) and the ffmpeg format-level tag dictionary (none when the
probe fails or the container has no tag store), plus the filesystem
modification time. -/
structure FileMeta where
  exif : Option (List (Nat × String))
  videoTags : Option (List (String × String))
  mtime : DateTime
deriving DecidableEq, Repr

/-- A filesystem entry: a regular file with content and metadata, or a
directory. -/
inductive Entry where
  | file (content : List Nat) (meta : FileMeta)
  | dir
deriving DecidableEq, Repr

/-- Flat filesystem: association list from paths to entries; the first
binding of a path is the visible one. -/
structure FS where
  entries : List (String × Entry)
deriving DecidableEq, Repr

/-- Entry visible at a path. -/
def FS.lookup (fs : FS) (p : String) : Option Entry :=
  (fs.entries.find? (fun e => e.1 == p)).map Prod.snd

/-- os.path.exists: any entry at the path counts. -/
def FS.pathExists (fs : FS) (p : String) : Bool := (fs.lookup p).isSome

/-- Create or replace the entry at a path. -/
def FS.insert (fs : FS) (p : String) (e : Entry) : FS :=
  ⟨(p, e) :: fs.entries⟩

/-- One step of os.makedirs over one ancestor: an existing directory is kept
(exist_ok=True), a regular file in the way raises NotADirectoryError, a
missing ancestor is created; after an error the remaining ancestors are not
visited. -/
def mkdirStep (acc : FS × Option String) (q : String) : FS × Option String :=
  match acc.2 with
  | some _ => acc
  | none =>
    if q = "" then acc
    else
      match acc.1.lookup q with
      | some Entry.dir => acc
      | some (Entry.file _ _) => (acc.1, some "NotADirectoryError")
      | none => (acc.1.insert q Entry.dir, none)

/-- os.makedirs(p, exist_ok=True): create the missing ancestors in order;
on failure the directories already created persist and the error is
reported. -/
def FS.makedirs (fs : FS) (p : String) : FS × Option String :=
  (ancestorPaths p).foldl mkdirStep (fs, none)

/-- shutil.copy2(src, dst): copy content and metadata.  Fails when the
source is missing or is a directory, when dst is an existing directory, or
when the parent of dst is not a directory (an empty parent means the
current working directory). -/
def FS.copy2 (fs : FS) (src dst : String) : Except String FS :=
  match fs.lookup src with
  | none => Except.error "FileNotFoundError"
  | some Entry.dir => Except.error "IsADirectoryError"
  | some (Entry.file c m) =>
    match fs.lookup dst with
    | some Entry.dir => Except.error "IsADirectoryError"
    | _ =>
      let parent := strDirname dst
      if parent = "" ∨ fs.lookup parent = some Entry.dir then
        Except.ok (fs.insert dst (Entry.file c m))
      else Except.error "NotADirectoryError"

/-- The image extension table of PhotoOrganizer.init (a per-instance field
in the source, but initialised to the same literal for every instance). -/
def imageExtensions : List String :=
  [".jpg", ".jpeg", ".png", ".gif", ".bmp", ".tiff", ".heic", ".webp"]

/-- The video extension table of PhotoOrganizer.init. -/
def videoExtensions : List String :=
  [".mp4", ".mov", ".avi", ".mkv", ".webm", ".mpg", ".m4v"]

/-- all_extensions of organize_file line 86. -/
def allExtensions : List String := imageExtensions ++ videoExtensions

/-- Media kind of the specification. -/
inductive MediaKind where
  | image
  | video
  | unsupported
deriving DecidableEq, Repr

/-- The classification the source performs by extension lookup
(lines 43, 47, 62, 83, 87): lower-cased extension against the two fixed
tables. -/
def classify (path : String) : MediaKind :=
  let ext := strToLower (splitextExt path)
  if imageExtensions.contains ext then MediaKind.image
  else if videoExtensions.contains ext then MediaKind.video
  else MediaKind.unsupported

/-- Dictionary access for the EXIF tag numbers (source lines 54 and 55). -/
def lookupTag (tags : List (Nat × String)) (tagId : Nat) : Option String :=
  (tags.find? (fun e => e.1 == tagId)).map Prod.snd

/-- Dictionary access for the format-level tag names (source line 66). -/
def lookupFormatTag (tags : List (String × String)) (key : String) :
    Option String :=
  (tags.find? (fun e => e.1 == key)).map Prod.snd

/-- The embedded-date attempt of get_file_date (source lines 45 to 73):
for an image, tag 36867 (DateTimeOriginal) is consulted first and tag 306
(DateTime) only when 36867 is absent; a parse failure of the consulted tag
raises inside the try block and degrades to none (so the fallback applies).
For a video the creation_time format tag is consulted.  Every failure of
the collaborators degrades to none. -/
def extractEmbeddedDate (fs : FS) (file_path : String) (file_ext : String) :
    Option DateTime :=
  match fs.lookup file_path with
  | some (Entry.file _ m) =>
    if imageExtensions.contains file_ext then
      match m.exif with
      | some exif_data =>
        match lookupTag exif_data 36867 with
        | some date_str => parseExifDate date_str
        | none =>
          match lookupTag exif_data 306 with
          | some date_str => parseExifDate date_str
          | none => none
      | none => none
    else if videoExtensions.contains file_ext then
      match m.videoTags with
      | some tags =>
        match lookupFormatTag tags "creation_time" with
        | some date_str => parseVideoDate date_str
        | none => none
      | none => none
    else none
  | _ => none

/-- PhotoOrganizer.get_file_date (source lines 38 to 77): embedded date if
one can be extracted, otherwise os.path.getmtime, which raises OSError
(modelled as Except.error) when the path is not an accessible regular
file; that exception propagates to the caller. -/
def get_file_date (fs : FS) (file_path : String) : Except String DateTime :=
  let file_ext := strToLower (splitextExt file_path)
  match extractEmbeddedDate fs file_path file_ext with
  | some d => Except.ok d
  | none =>
    match fs.lookup file_path with
    | some (Entry.file _ m) => Except.ok m.mtime
    | _ => Except.error "OSError"

/-- PhotoOrganizer construction state (watch_paths, output_path, dry_run of
init). -/
structure Organizer where
  watch_paths : List String
  output_path : String
  dry_run : Bool

/-- Outcome of organize_file for one path, mirroring the log line that the
source emits on each exit (PlacementDecision action of the spec plus the
caught-exception outcome of lines 126 and 127). -/
inductive Action where
  | Copied
  | WouldCopy
  | SkipExists
  | SkipUnsupported
  | SkipNoDate
  | Failed (msg : String)
deriving DecidableEq, Repr

/-- dest_dir of organize_file lines 99 to 101:
os.path.join(output_path, str(year), date.strftime(%Y-%m-%d)). -/
def dest_dir_of (o : Organizer) (d : DateTime) : String :=
  osPathJoin (osPathJoin o.output_path (strNat d.year)) (strftimeYMD d)

/-- dest_path of organize_file lines 104 to 107:
os.path.join(dest_dir, os.path.basename(file_path)). -/
def dest_path_of (o : Organizer) (d : DateTime) (file_path : String) : String :=
  osPathJoin (dest_dir_of o d) (strBasename file_path)

/-- PhotoOrganizer.organize_file (source lines 79 to 127).  The try block of
line 91 catches every exception raised between date resolution and the
copy, logs it and returns; the filesystem changes already performed before
the exception persist. -/
def organize_file (o : Organizer) (fs : FS) (file_path : String) :
    FS × Action :=
  let file_ext := strToLower (splitextExt file_path)
  if !(allExtensions.contains file_ext) then (fs, Action.SkipUnsupported)
  else
    match get_file_date fs file_path with
    | Except.error e => (fs, Action.Failed e)
    | Except.ok file_date =>
      if !(dtTruthy file_date) then (fs, Action.SkipNoDate)
      else
        let dest_dir := dest_dir_of o file_date
        let dest_path := dest_path_of o file_date file_path
        if fs.pathExists dest_path then (fs, Action.SkipExists)
        else
          let mk :=
            if !(fs.pathExists dest_dir) && !(o.dry_run) then
              fs.makedirs dest_dir
            else (fs, none)
          match mk with
          | (fs1, some e) => (fs1, Action.Failed e)
          | (fs1, none) =>
            if o.dry_run then (fs1, Action.WouldCopy)
            else
              match fs1.copy2 file_path dest_path with
              | Except.error e => (fs1, Action.Failed e)
              | Except.ok fs2 => (fs2, Action.Copied)

/-- PhotoOrganizer.process_directory (source lines 129 to 137): hand every
regular file below the root to organize_file; the enumeration order of
os.walk is the order of the given list. -/
def process_directory (o : Organizer) (fs : FS) (files : List String) :
    FS × List Action :=
  files.foldl
    (fun acc file_path =>
      let r := organize_file o acc.1 file_path
      (r.1, acc.2 ++ [r.2]))
    (fs, [])

/-! ### Concrete fixtures used to evaluate the model on closed inputs -/

/-- A file with no readable embedded metadata, modified 2023-06-15 10:00:00. -/
def wMeta : FileMeta := ⟨none, none, ⟨2023, 6, 15, 10, 0, 0⟩⟩

/-- EXIF dictionary carrying both DateTimeOriginal (36867) and DateTime (306). -/
def wMetaBoth : FileMeta :=
  ⟨some [(36867, "2022:01:05 08:30:00"), (306, "2020:01:01 00:00:00")], none,
    ⟨2023, 6, 15, 10, 0, 0⟩⟩

/-- EXIF dictionary carrying only the DateTime (306) tag. -/
def wMetaDT : FileMeta :=
  ⟨some [(306, "2020:01:01 00:00:00")], none, ⟨2023, 6, 15, 10, 0, 0⟩⟩

/-- Organizer watching in/, writing to out/. -/
def wOrg : Organizer := ⟨["in"], "out", false⟩

/-- The same organizer in dry-run mode. -/
def wOrgDry : Organizer := ⟨["in"], "out", true⟩

/-- One plain source image. -/
def wFS : FS := ⟨[("in/a.jpg", Entry.file [1, 2] wMeta)]⟩

/-- Source image whose destination already holds a regular file. -/
def wFSdst : FS :=
  ⟨[("in/a.jpg", Entry.file [1, 2] wMeta),
    ("out/2023/2023-06-15/a.jpg", Entry.file [9] wMeta)]⟩

/-- Source image whose destination path is occupied by a directory. -/
def wFSdstDir : FS :=
  ⟨[("in/a.jpg", Entry.file [1, 2] wMeta),
    ("out/2023/2023-06-15/a.jpg", Entry.dir)]⟩

/-- Source image with both EXIF date tags present. -/
def wFSboth : FS := ⟨[("in/b.jpg", Entry.file [3] wMetaBoth)]⟩

/-- Source image with only the DateTime tag present. -/
def wFSdt : FS := ⟨[("in/c.jpg", Entry.file [4] wMetaDT)]⟩

/-- Source file below a subdirectory, with an upper-case extension. -/
def wFSupper : FS := ⟨[("in/sub/MyPhoto.JPG", Entry.file [7] wMeta)]⟩

/-- Source image whose destination directory path is occupied by a regular
file, so the copy step fails although date resolution succeeded. -/
def wFSblocked : FS :=
  ⟨[("in/a.jpg", Entry.file [1, 2] wMeta),
    ("out/2023/2023-06-15", Entry.file [] wMeta)]⟩

/-! ### Lookup and insertion -/

theorem FS.lookup_insert_self (fs : FS) (p : String) (e : Entry) :
    (fs.insert p e).lookup p = some e := by
  simp [FS.insert, FS.lookup]

theorem FS.lookup_insert_ne (fs : FS) {p q : String} (e : Entry) (h : q ≠ p) :
    (fs.insert p e).lookup q = fs.lookup q := by
  have hb : (p == q) = false := by
    simp only [beq_eq_false_iff_ne]
    exact fun hpq => h hpq.symm
  simp [FS.insert, FS.lookup, hb]

/-! ### makedirs fold lemmas -/

theorem mkdirStep_error (fs : FS) (e : String) (q : String) :
    mkdirStep (fs, some e) q = (fs, some e) := rfl

theorem foldl_mkdirStep_error (l : List String) (fs : FS) (e : String) :
    l.foldl mkdirStep (fs, some e) = (fs, some e) := by
  induction l with
  | nil => rfl
  | cons x xs ih => rw [List.foldl_cons, mkdirStep_error]; exact ih

theorem mkdirStep_preserves {acc : FS × Option String} {q p : String} {e : Entry}
    (h : acc.1.lookup p = some e) : ((mkdirStep acc q).1).lookup p = some e := by
  rcases acc with ⟨fs, err⟩
  cases err with
  | some m => simpa [mkdirStep] using h
  | none =>
    by_cases hq : q = ""
    · simpa [mkdirStep, hq] using h
    · cases hl : fs.lookup q with
      | none =>
        have hne : p ≠ q := by
          intro hpq
          rw [hpq] at h
          rw [h] at hl
          cases hl
        simpa [mkdirStep, hq, hl, FS.lookup_insert_ne fs Entry.dir hne] using h
      | some ent =>
        cases ent with
        | dir => simpa [mkdirStep, hq, hl] using h
        | file c m => simpa [mkdirStep, hq, hl] using h

theorem foldl_mkdirStep_preserves (l : List String) (acc : FS × Option String)
    {p : String} {e : Entry} (h : acc.1.lookup p = some e) :
    ((l.foldl mkdirStep acc).1).lookup p = some e := by
  induction l generalizing acc with
  | nil => simpa using h
  | cons x xs ih => rw [List.foldl_cons]; exact ih _ (mkdirStep_preserves h)

theorem makedirs_preserves (fs : FS) (q : String) {p : String} {e : Entry}
    (h : fs.lookup p = some e) : ((fs.makedirs q).1).lookup p = some e :=
  foldl_mkdirStep_preserves _ _ h

theorem mkdirStep_lookup_ne {acc : FS × Option String} {q p : String}
    (h : p ≠ q) : ((mkdirStep acc q).1).lookup p = acc.1.lookup p := by
  rcases acc with ⟨fs, err⟩
  cases err with
  | some m => rfl
  | none =>
    by_cases hq : q = ""
    · simp [mkdirStep, hq]
    · cases hl : fs.lookup q with
      | none => simp [mkdirStep, hq, hl, FS.lookup_insert_ne fs Entry.dir h]
      | some ent =>
        cases ent with
        | dir => simp [mkdirStep, hq, hl]
        | file c m => simp [mkdirStep, hq, hl]

theorem foldl_mkdirStep_not_mem (l : List String) (acc : FS × Option String)
    {p : String} (h : p ∉ l) :
    ((l.foldl mkdirStep acc).1).lookup p = acc.1.lookup p := by
  induction l generalizing acc with
  | nil => rfl
  | cons x xs ih =>
    rw [List.foldl_cons]
    have hx : p ≠ x := fun hpx => h (hpx ▸ List.mem_cons_self x xs)
    have hxs : p ∉ xs := fun hm => h (List.mem_cons_of_mem x hm)
    rw [ih _ hxs, mkdirStep_lookup_ne hx]

theorem mkdirStep_lookup_or (acc : FS × Option String) (q p : String) :
    ((mkdirStep acc q).1).lookup p = acc.1.lookup p ∨
      ((mkdirStep acc q).1).lookup p = some Entry.dir := by
  by_cases hpq : p = q
  · subst hpq
    rcases acc with ⟨fs, err⟩
    cases err with
    | some m => exact Or.inl rfl
    | none =>
      by_cases hq : p = ""
      · simp [mkdirStep, hq]
      · cases hl : fs.lookup p with
        | none => right; simp [mkdirStep, hq, hl, FS.lookup_insert_self]
        | some ent =>
          cases ent with
          | dir => left; simp [mkdirStep, hq, hl]
          | file c m => left; simp [mkdirStep, hq, hl]
  · exact Or.inl (mkdirStep_lookup_ne hpq)

theorem foldl_mkdirStep_lookup_or (l : List String) (acc : FS × Option String) (p : String) :
    ((l.foldl mkdirStep acc).1).lookup p = acc.1.lookup p ∨
      ((l.foldl mkdirStep acc).1).lookup p = some Entry.dir := by
  induction l generalizing acc with
  | nil => exact Or.inl rfl
  | cons x xs ih =>
    rw [List.foldl_cons]
    rcases ih (mkdirStep acc x) with h | h
    · rcases mkdirStep_lookup_or acc x p with h2 | h2
      · exact Or.inl (h.trans h2)
      · exact Or.inr (h.trans h2)
    · exact Or.inr h

theorem foldl_mkdirStep_none_dirs (l : List String) (fs : FS)
    (h : (l.foldl mkdirStep (fs, none)).2 = none) :
    ∀ q ∈ l, q ≠ "" → ((l.foldl mkdirStep (fs, none)).1).lookup q = some Entry.dir := by
  induction l generalizing fs with
  | nil => intro q hq; cases hq
  | cons x xs ih =>
    intro q hq hne
    rw [List.foldl_cons] at h ⊢
    by_cases hx : x = ""
    · have hstep : mkdirStep (fs, none) x = (fs, none) := by simp [mkdirStep, hx]
      rw [hstep] at h ⊢
      rcases List.mem_cons.mp hq with hqx | hqm
      · exact absurd (hqx.trans hx) hne
      · exact ih fs h q hqm hne
    · cases hl : fs.lookup x with
      | none =>
        have hstep : mkdirStep (fs, none) x = (fs.insert x Entry.dir, none) := by
          simp [mkdirStep, hx, hl]
        rw [hstep] at h ⊢
        rcases List.mem_cons.mp hq with hqx | hqm
        · subst hqx
          exact foldl_mkdirStep_preserves _ _ (FS.lookup_insert_self fs q Entry.dir)
        · exact ih _ h q hqm hne
      | some ent =>
        cases ent with
        | dir =>
          have hstep : mkdirStep (fs, none) x = (fs, none) := by simp [mkdirStep, hx, hl]
          rw [hstep] at h ⊢
          rcases List.mem_cons.mp hq with hqx | hqm
          · subst hqx; exact foldl_mkdirStep_preserves _ _ hl
          · exact ih fs h q hqm hne
        | file c m =>
          have hstep : mkdirStep (fs, none) x = (fs, some "NotADirectoryError") := by
            simp [mkdirStep, hx, hl]
          rw [hstep, foldl_mkdirStep_error] at h
          cases h

theorem foldl_mkdirStep_clean (l : List String) (fs : FS)
    (hclean : ∀ r ∈ l, ∀ c m, fs.lookup r ≠ some (Entry.file c m)) :
    (l.foldl mkdirStep (fs, none)).2 = none := by
  induction l generalizing fs with
  | nil => rfl
  | cons x xs ih =>
    rw [List.foldl_cons]
    by_cases hx : x = ""
    · have hstep : mkdirStep (fs, none) x = (fs, none) := by simp [mkdirStep, hx]
      rw [hstep]
      exact ih fs (fun r hr => hclean r (List.mem_cons_of_mem x hr))
    · cases hl : fs.lookup x with
      | none =>
        have hstep : mkdirStep (fs, none) x = (fs.insert x Entry.dir, none) := by
          simp [mkdirStep, hx, hl]
        rw [hstep]
        refine ih _ (fun r hr c m => ?_)
        by_cases hrx : r = x
        · subst hrx; rw [FS.lookup_insert_self]; intro hc; cases hc
        · rw [FS.lookup_insert_ne fs Entry.dir hrx]
          exact hclean r (List.mem_cons_of_mem x hr) c m
      | some ent =>
        cases ent with
        | dir =>
          have hstep : mkdirStep (fs, none) x = (fs, none) := by simp [mkdirStep, hx, hl]
          rw [hstep]
          exact ih fs (fun r hr => hclean r (List.mem_cons_of_mem x hr))
        | file c m =>
          exact absurd hl (hclean x (List.mem_cons_self x xs) c m)

theorem foldl_mkdirStep_replay (l : List String) (fs fs' : FS) (e : String)
    (h : l.foldl mkdirStep (fs, none) = (fs', some e)) :
    l.foldl mkdirStep (fs', none) = (fs', some e) := by
  induction l generalizing fs with
  | nil => simp at h
  | cons x xs ih =>
    rw [List.foldl_cons] at h ⊢
    by_cases hx : x = ""
    · have hstep : mkdirStep (fs, none) x = (fs, none) := by simp [mkdirStep, hx]
      rw [hstep] at h
      have hstep' : mkdirStep (fs', none) x = (fs', none) := by simp [mkdirStep, hx]
      rw [hstep']
      exact ih fs h
    · cases hl : fs.lookup x with
      | none =>
        have hstep : mkdirStep (fs, none) x = (fs.insert x Entry.dir, none) := by
          simp [mkdirStep, hx, hl]
        rw [hstep] at h
        have hx' : fs'.lookup x = some Entry.dir := by
          have hp := foldl_mkdirStep_preserves xs (fs.insert x Entry.dir, none)
            (FS.lookup_insert_self fs x Entry.dir)
          rw [h] at hp
          exact hp
        have hstep' : mkdirStep (fs', none) x = (fs', none) := by simp [mkdirStep, hx, hx']
        rw [hstep']
        exact ih _ h
      | some ent =>
        cases ent with
        | dir =>
          have hstep : mkdirStep (fs, none) x = (fs, none) := by simp [mkdirStep, hx, hl]
          rw [hstep] at h
          have hx' : fs'.lookup x = some Entry.dir := by
            have hp := foldl_mkdirStep_preserves xs (fs, none) hl
            rw [h] at hp
            exact hp
          have hstep' : mkdirStep (fs', none) x = (fs', none) := by simp [mkdirStep, hx, hx']
          rw [hstep']
          exact ih fs h
        | file c m =>
          have hstep : mkdirStep (fs, none) x = (fs, some "NotADirectoryError") := by
            simp [mkdirStep, hx, hl]
          rw [hstep, foldl_mkdirStep_error] at h
          have h1 : fs = fs' := congrArg Prod.fst h
          have h2 : "NotADirectoryError" = e := Option.some.inj (congrArg Prod.snd h)
          subst h1
          subst h2
          rw [hstep, foldl_mkdirStep_error]

theorem foldl_mkdirStep_append_last_none (l : List String) (q : String) (fs fs' : FS)
    (e : String) (hq : q ∉ l)
    (hrun : (l ++ [q]).foldl mkdirStep (fs, none) = (fs', some e))
    (h0 : fs.lookup q = none) : fs'.lookup q = none := by
  rw [List.foldl_append] at hrun
  rcases hmid : l.foldl mkdirStep (fs, none) with ⟨fsm, err⟩
  rw [hmid] at hrun
  have hfsm : fsm.lookup q = none := by
    have := foldl_mkdirStep_not_mem l (fs, none) hq
    rw [hmid] at this
    exact this.trans h0
  cases err with
  | some em =>
    rw [foldl_mkdirStep_error] at hrun
    have h1 : fsm = fs' := congrArg Prod.fst hrun
    exact h1 ▸ hfsm
  | none =>
    exfalso
    by_cases hq0 : q = ""
    · have hstep : [q].foldl mkdirStep (fsm, none) = (fsm, none) := by
        simp [List.foldl, mkdirStep, hq0]
      rw [hstep] at hrun
      exact Option.noConfusion (congrArg Prod.snd hrun)
    · have hstep : [q].foldl mkdirStep (fsm, none) = (fsm.insert q Entry.dir, none) := by
        simp [List.foldl, mkdirStep, hq0, hfsm]
      rw [hstep] at hrun
      exact Option.noConfusion (congrArg Prod.snd hrun)

/-! ### process_directory fold lemmas -/

theorem process_foldl_length (o : Organizer) (l : List String) (fs : FS)
    (acc : List Action) :
    ((l.foldl
      (fun acc file_path =>
        let r := organize_file o acc.1 file_path
        (r.1, acc.2 ++ [r.2]))
      (fs, acc)).2).length = acc.length + l.length := by
  induction l generalizing fs acc with
  | nil => simp
  | cons x xs ih =>
    rw [List.foldl_cons]
    have h := ih (organize_file o fs x).1 (acc ++ [(organize_file o fs x).2])
    rw [List.length_append] at h
    rw [h]
    simp [List.length_cons]
    omega

/-! ### Decimal strings -/

theorem natDigitsAux_digits (fuel : Nat) :
    ∀ n : Nat, ∀ c ∈ natDigitsAux fuel n, ∃ k, k < 10 ∧ c = digitChar k := by
  induction fuel with
  | zero => intro n c hc; cases hc
  | succ fuel ih =>
    intro n c hc
    simp only [natDigitsAux] at hc
    by_cases h : n < 10
    · rw [if_pos h] at hc
      rcases List.mem_singleton.mp hc with rfl
      exact ⟨n, h, rfl⟩
    · rw [if_neg h] at hc
      rcases List.mem_append.mp hc with h1 | h1
      · exact ih _ c h1
      · rcases List.mem_singleton.mp h1 with rfl
        exact ⟨n % 10, Nat.mod_lt _ (by omega), rfl⟩

theorem digitChar_ne_slash {k : Nat} (h : k < 10) : digitChar k ≠ '/' := by
  interval_cases k <;> decide

theorem mem_strNat_digit {n : Nat} {c : Char} (h : c ∈ (strNat n).data) :
    ∃ k, k < 10 ∧ c = digitChar k :=
  natDigitsAux_digits _ _ c h

theorem strNat_data_ne_nil (n : Nat) : (strNat n).data ≠ [] := by
  show natDigits n ≠ []
  unfold natDigits
  simp only [natDigitsAux]
  by_cases h : n < 10
  · rw [if_pos h]; simp
  · rw [if_neg h]; simp

theorem strNat_ne_empty (n : Nat) : strNat n ≠ "" := by
  intro h
  exact strNat_data_ne_nil n (congrArg String.data h)

theorem mem_pad2_digit_or_zero {n : Nat} {c : Char} (h : c ∈ (pad2 n).data) :
    ∃ k, k < 10 ∧ c = digitChar k := by
  unfold pad2 at h
  by_cases hn : n < 10
  · rw [if_pos hn] at h
    rcases List.mem_cons.mp h with rfl | h1
    · exact ⟨0, by omega, rfl⟩
    · exact natDigitsAux_digits _ _ c h1
  · rw [if_neg hn] at h
    exact mem_strNat_digit h

theorem pad2_data_ne_nil (n : Nat) : (pad2 n).data ≠ [] := by
  unfold pad2
  by_cases hn : n < 10
  · rw [if_pos hn]; simp
  · rw [if_neg hn]; exact strNat_data_ne_nil n

/-! ### Head and last characters -/

theorem mem_of_strHead? {s : String} {c : Char} (h : strHead? s = some c) : c ∈ s.data := by
  unfold strHead? at h
  rcases List.head?_eq_some_iff.mp h with ⟨ys, hy⟩
  rw [hy]
  exact List.mem_cons_self c ys

theorem mem_of_strLast? {s : String} {c : Char} (h : strLast? s = some c) : c ∈ s.data :=
  List.mem_of_getLast?_eq_some h

theorem strHead?_strNat_ne_slash (n : Nat) : strHead? (strNat n) ≠ some '/' := by
  intro h
  obtain ⟨k, hk, he⟩ := mem_strNat_digit (mem_of_strHead? h)
  exact digitChar_ne_slash hk he.symm

theorem strLast?_append_right {a b : String} (h : b.data ≠ []) :
    strLast? (a ++ b) = strLast? b := by
  unfold strLast?
  rw [String.data_append, List.getLast?_append]
  cases hb : b.data.getLast? with
  | none => exact absurd (List.getLast?_eq_none_iff.mp hb) h
  | some c => rfl

theorem strHead?_append_left {a b : String} (h : a.data ≠ []) :
    strHead? (a ++ b) = strHead? a := by
  unfold strHead?
  rw [String.data_append, List.head?_append]
  cases ha : a.data.head? with
  | none => exact absurd (List.head?_eq_none_iff.mp ha) h
  | some c => rfl

theorem append_data_ne_nil_right (a : String) {b : String} (h : b.data ≠ []) :
    (a ++ b).data ≠ [] := by
  rw [String.data_append]
  intro hc
  exact h (List.append_eq_nil.mp hc).2

theorem strftimeYMD_data_ne_nil (d : DateTime) : (strftimeYMD d).data ≠ [] := by
  unfold strftimeYMD
  exact append_data_ne_nil_right _ (pad2_data_ne_nil d.day)

theorem append_data_ne_nil_left {a : String} (h : a.data ≠ []) (b : String) :
    (a ++ b).data ≠ [] := by
  rw [String.data_append]
  intro hc
  exact h (List.append_eq_nil.mp hc).1

theorem strftimeYMD_head_ne_slash (d : DateTime) :
    strHead? (strftimeYMD d) ≠ some '/' := by
  have e1 := strNat_data_ne_nil d.year
  have e2 : (strNat d.year ++ "-").data ≠ [] := append_data_ne_nil_left e1 _
  have e3 : (strNat d.year ++ "-" ++ pad2 d.month).data ≠ [] := append_data_ne_nil_left e2 _
  have e4 : (strNat d.year ++ "-" ++ pad2 d.month ++ "-").data ≠ [] :=
    append_data_ne_nil_left e3 _
  unfold strftimeYMD
  rw [strHead?_append_left e4, strHead?_append_left e3, strHead?_append_left e2,
    strHead?_append_left e1]
  exact strHead?_strNat_ne_slash d.year

theorem strftimeYMD_last_ne_slash (d : DateTime) :
    strLast? (strftimeYMD d) ≠ some '/' := by
  unfold strftimeYMD
  rw [strLast?_append_right (pad2_data_ne_nil d.day)]
  intro h
  obtain ⟨k, hk, he⟩ := mem_pad2_digit_or_zero (mem_of_strLast? h)
  exact digitChar_ne_slash hk he.symm

/-! ### Join and destination path shapes -/

theorem osPathJoin_eq {a b : String} (hb : strHead? b ≠ some '/') (ha : a ≠ "")
    (hl : strLast? a ≠ some '/') : osPathJoin a b = a ++ "/" ++ b := by
  unfold osPathJoin
  rw [if_neg hb, if_neg]
  intro h
  rcases h with h | h
  · exact ha h
  · exact hl h

theorem osPathJoin_data_ne_nil (a : String) {b : String} (h : b.data ≠ []) :
    (osPathJoin a b).data ≠ [] := by
  unfold osPathJoin
  by_cases h1 : strHead? b = some '/'
  · rw [if_pos h1]; exact h
  · rw [if_neg h1]
    by_cases h2 : a = "" ∨ strLast? a = some '/'
    · rw [if_pos h2]; exact append_data_ne_nil_right a h
    · rw [if_neg h2]; exact append_data_ne_nil_right _ h

theorem osPathJoin_last {a b : String} (h : b.data ≠ []) :
    strLast? (osPathJoin a b) = strLast? b := by
  unfold osPathJoin
  by_cases h1 : strHead? b = some '/'
  · rw [if_pos h1]
  · rw [if_neg h1]
    by_cases h2 : a = "" ∨ strLast? a = some '/'
    · rw [if_pos h2]; exact strLast?_append_right h
    · rw [if_neg h2]; exact strLast?_append_right h

theorem dest_dir_data_ne_nil (o : Organizer) (d : DateTime) :
    (dest_dir_of o d).data ≠ [] := by
  unfold dest_dir_of
  exact osPathJoin_data_ne_nil _ (strftimeYMD_data_ne_nil d)

theorem dest_dir_ne_empty (o : Organizer) (d : DateTime) : dest_dir_of o d ≠ "" := by
  intro h
  exact dest_dir_data_ne_nil o d (congrArg String.data h)

theorem dest_dir_last_ne_slash (o : Organizer) (d : DateTime) :
    strLast? (dest_dir_of o d) ≠ some '/' := by
  unfold dest_dir_of
  rw [osPathJoin_last (strftimeYMD_data_ne_nil d)]
  exact strftimeYMD_last_ne_slash d

theorem strBasename_no_slash (p : String) : '/' ∉ (strBasename p).data := by
  intro h
  have h1 : '/' ∈ p.data.reverse.takeWhile (fun c => c != '/') := by
    have hd : (strBasename p).data = (p.data.reverse.takeWhile (fun c => c != '/')).reverse := rfl
    rw [hd] at h
    exact List.mem_reverse.mp h
  have h2 := List.mem_takeWhile_imp h1
  simp at h2

theorem strHead?_strBasename_ne_slash (p : String) :
    strHead? (strBasename p) ≠ some '/' := by
  intro h
  exact strBasename_no_slash p (mem_of_strHead? h)

theorem dest_path_eq (o : Organizer) (d : DateTime) (fp : String) :
    dest_path_of o d fp = dest_dir_of o d ++ "/" ++ strBasename fp := by
  unfold dest_path_of
  exact osPathJoin_eq (strHead?_strBasename_ne_slash fp) (dest_dir_ne_empty o d)
    (dest_dir_last_ne_slash o d)

theorem dest_path_data_length (o : Organizer) (d : DateTime) (fp : String) :
    (dest_path_of o d fp).data.length =
      (dest_dir_of o d).data.length + 1 + (strBasename fp).data.length := by
  rw [dest_path_eq, String.data_append, String.data_append]
  simp [List.length_append]
  omega

theorem ancestorPaths_length_le {p q : String} (h : q ∈ ancestorPaths p) :
    q.data.length ≤ p.data.length := by
  unfold ancestorPaths at h
  rcases List.mem_append.mp h with h1 | h1
  · rcases List.mem_map.mp h1 with ⟨i, hi, rfl⟩
    have h2 : i < p.data.length := List.mem_range.mp (List.mem_filter.mp hi).1
    have h3 := List.length_take_le i p.data
    show (p.data.take i).length ≤ p.data.length
    omega
  · rcases List.mem_singleton.mp h1 with rfl
    exact Nat.le_refl _

theorem self_mem_ancestorPaths (p : String) : p ∈ ancestorPaths p := by
  unfold ancestorPaths
  exact List.mem_append.mpr (Or.inr (List.mem_singleton.mpr rfl))

theorem dest_path_not_mem_ancestors (o : Organizer) (d : DateTime) (fp : String) :
    dest_path_of o d fp ∉ ancestorPaths (dest_dir_of o d) := by
  intro h
  have h1 := ancestorPaths_length_le h
  rw [dest_path_data_length] at h1
  omega

/-! ### dirname of a built destination path -/

theorem findIdx?_append_slash (l₁ rest : List Char)
    (h : ∀ c ∈ l₁, (c == '/') = false) :
    ∀ i, (l₁ ++ '/' :: rest).findIdx? (fun c => c == '/') i = some (i + l₁.length) := by
  induction l₁ with
  | nil => intro i; simp
  | cons x xs ih =>
    intro i
    rw [List.cons_append, List.findIdx?_cons, h x (List.mem_cons_self x xs)]
    have h2 := ih (fun c hc => h c (List.mem_cons_of_mem x hc)) (i + 1)
    simp only [Bool.false_eq_true, if_false, h2, List.length_cons]
    exact congrArg some (by omega)

theorem strDirname_concat (d f : String) (hd : d.data ≠ [])
    (hlast : strLast? d ≠ some '/') (hf : '/' ∉ f.data) :
    strDirname (d ++ "/" ++ f) = d := by
  have hdata : (d ++ "/" ++ f).data = (d.data ++ ['/']) ++ f.data := by
    rw [String.data_append, String.data_append]
  have hrev : ((d ++ "/" ++ f).data).reverse = f.data.reverse ++ '/' :: d.data.reverse := by
    rw [hdata]
    simp [List.reverse_append]
  have hnf : ∀ c ∈ f.data.reverse, (c == '/') = false := by
    intro c hc
    have hm : c ∈ f.data := List.mem_reverse.mp hc
    have hne : c ≠ '/' := fun he => hf (he ▸ hm)
    exact beq_eq_false_iff_ne.mpr hne
  have hfind : ((d ++ "/" ++ f).data).reverse.findIdx? (fun c => c == '/')
      = some f.data.length := by
    rw [hrev, findIdx?_append_slash f.data.reverse d.data.reverse hnf 0]
    simp
  obtain ⟨cl, hcl⟩ : ∃ c, d.data.getLast? = some c := by
    cases hg : d.data.getLast? with
    | none => exact absurd (List.getLast?_eq_none_iff.mp hg) hd
    | some c => exact ⟨c, rfl⟩
  have hclne : cl ≠ '/' := fun he => hlast (by rw [strLast?, hcl, he])
  have hlen : (d ++ "/" ++ f).data.length - f.data.length = d.data.length + 1 := by
    rw [hdata]
    simp only [List.length_append, List.length_cons, List.length_nil]
    omega
  have htake : (d ++ "/" ++ f).data.take ((d ++ "/" ++ f).data.length - f.data.length)
      = d.data ++ ['/'] := by
    rw [hlen, hdata]
    exact List.take_left' (by simp [List.length_append])
  have hall : ((d.data ++ ['/']).all (fun c => c == '/')) = false :=
    List.all_eq_false.mpr
      ⟨cl, List.mem_append.mpr (Or.inl (List.mem_of_getLast?_eq_some hcl)),
        by simp [hclne]⟩
  have hrevh : (d.data ++ ['/']).reverse = '/' :: d.data.reverse := by
    rw [List.reverse_append]
    simp
  obtain ⟨t, ht⟩ : ∃ t, d.data.reverse = cl :: t := by
    have hh : d.data.reverse.head? = some cl := by
      rw [List.head?_reverse]
      exact hcl
    exact List.head?_eq_some_iff.mp hh
  simp only [strDirname, hfind, htake, hall, Bool.false_eq_true, if_false, hrevh]
  rw [List.dropWhile_cons_of_pos (by simp), ht,
    List.dropWhile_cons_of_neg (by simp [hclne]), ← ht, List.reverse_reverse]

/-! ### Date resolution lemmas -/

theorem extractEmbeddedDate_congr {fs fs' : FS} {fp : String} (ext : String)
    (h : fs.lookup fp = fs'.lookup fp) :
    extractEmbeddedDate fs fp ext = extractEmbeddedDate fs' fp ext := by
  unfold extractEmbeddedDate
  rw [h]

theorem get_file_date_congr {fs fs' : FS} {fp : String}
    (h : fs.lookup fp = fs'.lookup fp) :
    get_file_date fs fp = get_file_date fs' fp := by
  simp only [get_file_date]
  rw [extractEmbeddedDate_congr _ h, h]

theorem get_file_date_of_extract_some {fs : FS} {fp : String} {d : DateTime}
    (he : extractEmbeddedDate fs fp (strToLower (splitextExt fp)) = some d) :
    get_file_date fs fp = Except.ok d := by
  simp only [get_file_date, he]

theorem get_file_date_fallback {fs : FS} {fp : String} {c : List Nat} {m : FileMeta}
    (h : fs.lookup fp = some (Entry.file c m))
    (he : extractEmbeddedDate fs fp (strToLower (splitextExt fp)) = none) :
    get_file_date fs fp = Except.ok m.mtime := by
  simp only [get_file_date, he, h]

theorem get_file_date_ok_of_file {fs : FS} {fp : String} {c : List Nat} {m : FileMeta}
    (h : fs.lookup fp = some (Entry.file c m)) :
    ∃ d, get_file_date fs fp = Except.ok d := by
  cases he : extractEmbeddedDate fs fp (strToLower (splitextExt fp)) with
  | some d => exact ⟨d, get_file_date_of_extract_some he⟩
  | none => exact ⟨m.mtime, get_file_date_fallback h he⟩

theorem get_file_date_error_of_missing {fs : FS} {fp : String}
    (h : fs.lookup fp = none) :
    get_file_date fs fp = Except.error "OSError" := by
  have he : extractEmbeddedDate fs fp (strToLower (splitextExt fp)) = none := by
    unfold extractEmbeddedDate
    rw [h]
  simp only [get_file_date, he, h]

theorem get_file_date_ok_src {fs : FS} {fp : String} {d : DateTime}
    (h : get_file_date fs fp = Except.ok d) :
    ∃ c m, fs.lookup fp = some (Entry.file c m) := by
  cases hl : fs.lookup fp with
  | some ent =>
    cases ent with
    | file c m => exact ⟨c, m, rfl⟩
    | dir =>
      have he : extractEmbeddedDate fs fp (strToLower (splitextExt fp)) = none := by
        unfold extractEmbeddedDate
        rw [hl]
      simp only [get_file_date, he, hl] at h
      exact Except.noConfusion h
  | none =>
    rw [get_file_date_error_of_missing hl] at h
    exact Except.noConfusion h

theorem get_file_date_error_src {fs : FS} {fp : String} {e : String}
    (h : get_file_date fs fp = Except.error e) :
    (fs.lookup fp = none ∨ fs.lookup fp = some Entry.dir) ∧ e = "OSError" := by
  cases hl : fs.lookup fp with
  | none =>
    rw [get_file_date_error_of_missing hl] at h
    exact ⟨Or.inl rfl, (Except.error.inj h).symm⟩
  | some ent =>
    cases ent with
    | dir =>
      have he : extractEmbeddedDate fs fp (strToLower (splitextExt fp)) = none := by
        unfold extractEmbeddedDate
        rw [hl]
      simp only [get_file_date, he, hl] at h
      exact ⟨Or.inr rfl, (Except.error.inj h).symm⟩
    | file c m =>
      obtain ⟨d, hd⟩ := get_file_date_ok_of_file hl
      rw [hd] at h
      exact Except.noConfusion h

/-! ### pathExists and copy2 -/

theorem pathExists_false_lookup {fs : FS} {p : String}
    (h : fs.pathExists p = false) : fs.lookup p = none := by
  unfold FS.pathExists at h
  cases hl : fs.lookup p with
  | none => rfl
  | some e => rw [hl] at h; cases h

theorem pathExists_true_lookup {fs : FS} {p : String}
    (h : fs.pathExists p = true) : ∃ e, fs.lookup p = some e := by
  unfold FS.pathExists at h
  cases hl : fs.lookup p with
  | none => rw [hl] at h; cases h
  | some e => exact ⟨e, rfl⟩

theorem copy2_ok_inv {fs : FS} {src dst : String} {fs' : FS}
    (h : fs.copy2 src dst = Except.ok fs') :
    ∃ c m, fs.lookup src = some (Entry.file c m) ∧
      fs' = fs.insert dst (Entry.file c m) := by
  cases hs : fs.lookup src with
  | none =>
    simp only [FS.copy2, hs] at h
    exact Except.noConfusion h
  | some ent =>
    cases ent with
    | dir =>
      simp only [FS.copy2, hs] at h
      exact Except.noConfusion h
    | file c m =>
      refine ⟨c, m, rfl, ?_⟩
      cases hd : fs.lookup dst with
      | some ent2 =>
        cases ent2 with
        | dir =>
          simp only [FS.copy2, hs, hd] at h
          exact Except.noConfusion h
        | file c2 m2 =>
          simp only [FS.copy2, hs, hd] at h
          by_cases hp : strDirname dst = "" ∨ fs.lookup (strDirname dst) = some Entry.dir
          · rw [if_pos hp] at h
            exact (Except.ok.inj h).symm
          · rw [if_neg hp] at h
            exact Except.noConfusion h
      | none =>
        simp only [FS.copy2, hs, hd] at h
        by_cases hp : strDirname dst = "" ∨ fs.lookup (strDirname dst) = some Entry.dir
        · rw [if_pos hp] at h
          exact (Except.ok.inj h).symm
        · rw [if_neg hp] at h
          exact Except.noConfusion h

theorem copy2_ok_of {fs : FS} {src dst : String} {c : List Nat} {m : FileMeta}
    (hs : fs.lookup src = some (Entry.file c m))
    (hd : fs.lookup dst ≠ some Entry.dir)
    (hp : fs.lookup (strDirname dst) = some Entry.dir) :
    fs.copy2 src dst = Except.ok (fs.insert dst (Entry.file c m)) := by
  cases hdl : fs.lookup dst with
  | some ent2 =>
    cases ent2 with
    | dir => exact absurd hdl hd
    | file c2 m2 =>
      simp only [FS.copy2, hs, hdl]
      rw [if_pos (Or.inr hp)]
  | none =>
    simp only [FS.copy2, hs, hdl]
    rw [if_pos (Or.inr hp)]

/-! ### organize_file branch equations -/

theorem organize_unsupported {o : Organizer} {fs : FS} {fp : String}
    (h : allExtensions.contains (strToLower (splitextExt fp)) = false) :
    organize_file o fs fp = (fs, Action.SkipUnsupported) := by
  have h' : strToLower (splitextExt fp) ∉ allExtensions := by simpa using h
  simp [organize_file, h']

theorem organize_failed_res {o : Organizer} {fs : FS} {fp : String} {e : String}
    (hsup : allExtensions.contains (strToLower (splitextExt fp)) = true)
    (he : get_file_date fs fp = Except.error e) :
    organize_file o fs fp = (fs, Action.Failed e) := by
  have hsup' : strToLower (splitextExt fp) ∈ allExtensions := by simpa using hsup
  simp [organize_file, hsup', he]

theorem organize_skipExists {o : Organizer} {fs : FS} {fp : String} {d : DateTime}
    (hsup : allExtensions.contains (strToLower (splitextExt fp)) = true)
    (hok : get_file_date fs fp = Except.ok d)
    (hex : fs.pathExists (dest_path_of o d fp) = true) :
    organize_file o fs fp = (fs, Action.SkipExists) := by
  have hsup' : strToLower (splitextExt fp) ∈ allExtensions := by simpa using hsup
  simp [organize_file, hsup', hok, dtTruthy, hex]

theorem organize_wouldCopy {o : Organizer} {fs : FS} {fp : String} {d : DateTime}
    (hsup : allExtensions.contains (strToLower (splitextExt fp)) = true)
    (hok : get_file_date fs fp = Except.ok d)
    (hne : fs.pathExists (dest_path_of o d fp) = false)
    (hdry : o.dry_run = true) :
    organize_file o fs fp = (fs, Action.WouldCopy) := by
  have hsup' : strToLower (splitextExt fp) ∈ allExtensions := by simpa using hsup
  simp [organize_file, hsup', hok, dtTruthy, hne, hdry]

theorem organize_copy_eq {o : Organizer} {fs : FS} {fp : String} {d : DateTime}
    (hsup : allExtensions.contains (strToLower (splitextExt fp)) = true)
    (hok : get_file_date fs fp = Except.ok d)
    (hne : fs.pathExists (dest_path_of o d fp) = false)
    (hdry : o.dry_run = false) :
    organize_file o fs fp =
      (match
          (if fs.pathExists (dest_dir_of o d) = false then
            fs.makedirs (dest_dir_of o d)
          else (fs, none)) with
        | (fs1, some e) => (fs1, Action.Failed e)
        | (fs1, none) =>
          match fs1.copy2 fp (dest_path_of o d fp) with
          | Except.error e => (fs1, Action.Failed e)
          | Except.ok fs2 => (fs2, Action.Copied)) := by
  have hsup' : strToLower (splitextExt fp) ∈ allExtensions := by simpa using hsup
  by_cases hdd : fs.pathExists (dest_dir_of o d) = true
  · simp [organize_file, hsup', hok, dtTruthy, hne, hdry, hdd]
  · have hdd' : fs.pathExists (dest_dir_of o d) = false := by
      cases hb : fs.pathExists (dest_dir_of o d) with
      | true => exact absurd hb hdd
      | false => rfl
    simp [organize_file, hsup', hok, dtTruthy, hne, hdry, hdd']

theorem bool_eq_false {b : Bool} (h : ¬ b = true) : b = false := by
  cases b with
  | true => exact absurd rfl h
  | false => rfl

theorem organize_dry_state (o : Organizer) (fs : FS) (fp : String)
    (hdry : o.dry_run = true) : (organize_file o fs fp).1 = fs := by
  by_cases hsup : allExtensions.contains (strToLower (splitextExt fp)) = true
  · cases hgd : get_file_date fs fp with
    | error e => rw [organize_failed_res hsup hgd]
    | ok d =>
      by_cases hex : fs.pathExists (dest_path_of o d fp) = true
      · rw [organize_skipExists hsup hgd hex]
      · rw [organize_wouldCopy hsup hgd (bool_eq_false hex) hdry]
  · rw [organize_unsupported (bool_eq_false hsup)]

theorem organize_preserves (o : Organizer) (fs : FS) (fp : String) {p : String}
    {e : Entry} (h : fs.lookup p = some e) :
    ((organize_file o fs fp).1).lookup p = some e := by
  by_cases hsup : allExtensions.contains (strToLower (splitextExt fp)) = true
  · cases hgd : get_file_date fs fp with
    | error e2 => rw [organize_failed_res hsup hgd]; exact h
    | ok d =>
      by_cases hex : fs.pathExists (dest_path_of o d fp) = true
      · rw [organize_skipExists hsup hgd hex]; exact h
      · have hne := bool_eq_false hex
        have hpne : p ≠ dest_path_of o d fp := by
          intro hpe
          rw [hpe, pathExists_false_lookup hne] at h
          exact Option.noConfusion h
        by_cases hdry : o.dry_run = true
        · rw [organize_wouldCopy hsup hgd hne hdry]; exact h
        · rw [organize_copy_eq hsup hgd hne (bool_eq_false hdry)]
          by_cases hb : fs.pathExists (dest_dir_of o d) = false
          · rw [if_pos hb]
            rcases hmk : fs.makedirs (dest_dir_of o d) with ⟨fs1, err⟩
            have hfs1 : fs1.lookup p = some e := by
              have hp := makedirs_preserves fs (dest_dir_of o d) h
              rw [hmk] at hp
              exact hp
            cases err with
            | some e2 => exact hfs1
            | none =>
              cases hc2 : fs1.copy2 fp (dest_path_of o d fp) with
              | error e2 => simp only [hc2]; exact hfs1
              | ok fs2 =>
                obtain ⟨c2, m2, hsrc2, rfl⟩ := copy2_ok_inv hc2
                simp only [hc2]
                show (fs1.insert (dest_path_of o d fp) (Entry.file c2 m2)).lookup p = some e
                rw [FS.lookup_insert_ne fs1 _ hpne]
                exact hfs1
          · rw [if_neg hb]
            cases hc2 : fs.copy2 fp (dest_path_of o d fp) with
            | error e2 => simp only [hc2]; exact h
            | ok fs2 =>
              obtain ⟨c2, m2, hsrc2, rfl⟩ := copy2_ok_inv hc2
              simp only [hc2]
              show (fs.insert (dest_path_of o d fp) (Entry.file c2 m2)).lookup p = some e
              rw [FS.lookup_insert_ne fs _ hpne]
              exact h
  · rw [organize_unsupported (bool_eq_false hsup)]; exact h

theorem organize_copy_success {o : Organizer} {fs : FS} {fp : String} {d : DateTime}
    {c : List Nat} {m : FileMeta}
    (hsup : allExtensions.contains (strToLower (splitextExt fp)) = true)
    (hsrc : fs.lookup fp = some (Entry.file c m))
    (hok : get_file_date fs fp = Except.ok d)
    (hne : fs.pathExists (dest_path_of o d fp) = false)
    (hdry : o.dry_run = false)
    (hclean : ∀ q ∈ ancestorPaths (dest_dir_of o d), ∀ c2 m2,
        fs.lookup q ≠ some (Entry.file c2 m2)) :
    ∃ fs1 : FS,
      organize_file o fs fp =
        (fs1.insert (dest_path_of o d fp) (Entry.file c m), Action.Copied) ∧
      (∀ p e, fs.lookup p = some e → fs1.lookup p = some e) ∧
      fs1.lookup (dest_path_of o d fp) = none := by
  have hparent : strDirname (dest_path_of o d fp) = dest_dir_of o d := by
    rw [dest_path_eq]
    exact strDirname_concat _ _ (dest_dir_data_ne_nil o d) (dest_dir_last_ne_slash o d)
      (strBasename_no_slash fp)
  rw [organize_copy_eq hsup hok hne hdry]
  by_cases hb : fs.pathExists (dest_dir_of o d) = false
  · rw [if_pos hb]
    rcases hmk : fs.makedirs (dest_dir_of o d) with ⟨fs1, err⟩
    have herr : err = none := by
      have hcl := foldl_mkdirStep_clean (ancestorPaths (dest_dir_of o d)) fs hclean
      have heq : (ancestorPaths (dest_dir_of o d)).foldl mkdirStep (fs, none)
          = fs.makedirs (dest_dir_of o d) := rfl
      rw [heq, hmk] at hcl
      exact hcl
    subst herr
    have hdirs : fs1.lookup (dest_dir_of o d) = some Entry.dir := by
      have h2 : ((ancestorPaths (dest_dir_of o d)).foldl mkdirStep (fs, none)).2 = none := by
        have heq : (ancestorPaths (dest_dir_of o d)).foldl mkdirStep (fs, none)
            = fs.makedirs (dest_dir_of o d) := rfl
        rw [heq, hmk]
      have h3 := foldl_mkdirStep_none_dirs (ancestorPaths (dest_dir_of o d)) fs h2
        (dest_dir_of o d) (self_mem_ancestorPaths _) (dest_dir_ne_empty o d)
      have heq : (ancestorPaths (dest_dir_of o d)).foldl mkdirStep (fs, none)
          = fs.makedirs (dest_dir_of o d) := rfl
      rw [heq, hmk] at h3
      exact h3
    have hsrc1 : fs1.lookup fp = some (Entry.file c m) := by
      have hp := makedirs_preserves fs (dest_dir_of o d) hsrc
      rw [hmk] at hp
      exact hp
    have hdst1 : fs1.lookup (dest_path_of o d fp) = none := by
      have hnm := foldl_mkdirStep_not_mem (ancestorPaths (dest_dir_of o d)) (fs, none)
        (dest_path_not_mem_ancestors o d fp)
      have heq : (ancestorPaths (dest_dir_of o d)).foldl mkdirStep (fs, none)
          = fs.makedirs (dest_dir_of o d) := rfl
      rw [heq, hmk] at hnm
      exact hnm.trans (pathExists_false_lookup hne)
    have hcopy := copy2_ok_of hsrc1
      (by rw [hdst1]; exact fun hc => Option.noConfusion hc)
      (by rw [hparent]; exact hdirs)
    simp only [hcopy]
    refine ⟨fs1, rfl, ?_, hdst1⟩
    intro p e hpe
    have hp := makedirs_preserves fs (dest_dir_of o d) hpe
    rw [hmk] at hp
    exact hp
  · rw [if_neg hb]
    obtain ⟨ent, hent⟩ := pathExists_true_lookup (by
      cases hbb : fs.pathExists (dest_dir_of o d) with
      | true => rfl
      | false => exact absurd hbb hb)
    have hdir : ent = Entry.dir := by
      cases ent with
      | dir => rfl
      | file c2 m2 => exact absurd hent (hclean _ (self_mem_ancestorPaths _) c2 m2)
    subst hdir
    have hdst : fs.lookup (dest_path_of o d fp) = none := pathExists_false_lookup hne
    have hcopy := copy2_ok_of hsrc
      (by rw [hdst]; exact fun hc => Option.noConfusion hc)
      (by rw [hparent]; exact hent)
    simp only [hcopy]
    exact ⟨fs, rfl, fun p e hpe => hpe, hdst⟩

set_option maxHeartbeats 1000000 in
theorem organize_copied_lookup {o : Organizer} {fs : FS} {fp : String} {d : DateTime}
    (hcop : (organize_file o fs fp).2 = Action.Copied)
    (hok : get_file_date fs fp = Except.ok d) :
    ∃ c m, fs.lookup fp = some (Entry.file c m) ∧
      ((organize_file o fs fp).1).lookup (dest_path_of o d fp)
        = some (Entry.file c m) := by
  obtain ⟨c, m, hsrc⟩ := get_file_date_ok_src hok
  refine ⟨c, m, hsrc, ?_⟩
  by_cases hsup : allExtensions.contains (strToLower (splitextExt fp)) = true
  · by_cases hex : fs.pathExists (dest_path_of o d fp) = true
    · rw [organize_skipExists hsup hok hex] at hcop
      exact Action.noConfusion hcop
    · have hne := bool_eq_false hex
      by_cases hdry : o.dry_run = true
      · rw [organize_wouldCopy hsup hok hne hdry] at hcop
        exact Action.noConfusion hcop
      · rw [organize_copy_eq hsup hok hne (bool_eq_false hdry)] at hcop ⊢
        by_cases hb : fs.pathExists (dest_dir_of o d) = false
        · rw [if_pos hb] at hcop ⊢
          rcases hmk : fs.makedirs (dest_dir_of o d) with ⟨fs1, err⟩
          rw [hmk] at hcop
          cases err with
          | some e2 => exact Action.noConfusion hcop
          | none =>
            cases hc2 : fs1.copy2 fp (dest_path_of o d fp) with
            | error e2 =>
              simp only [hc2] at hcop
              exact Action.noConfusion hcop
            | ok fs2 =>
              obtain ⟨c2, m2, hsrc2, rfl⟩ := copy2_ok_inv hc2
              simp only [hc2]
              have hfs1 : fs1.lookup fp = some (Entry.file c m) := by
                have hp := makedirs_preserves fs (dest_dir_of o d) hsrc
                rw [hmk] at hp
                exact hp
              rw [hfs1] at hsrc2
              have hc' : Entry.file c m = Entry.file c2 m2 := Option.some.inj hsrc2
              cases hc'
              show (fs1.insert (dest_path_of o d fp) (Entry.file c m)).lookup
                (dest_path_of o d fp) = some (Entry.file c m)
              exact FS.lookup_insert_self fs1 _ _
        · rw [if_neg hb] at hcop ⊢
          cases hc2 : fs.copy2 fp (dest_path_of o d fp) with
          | error e2 =>
            simp only [hc2] at hcop
            exact Action.noConfusion hcop
          | ok fs2 =>
            obtain ⟨c2, m2, hsrc2, rfl⟩ := copy2_ok_inv hc2
            simp only [hc2]
            rw [hsrc] at hsrc2
            have hc' : Entry.file c m = Entry.file c2 m2 := Option.some.inj hsrc2
            cases hc'
            show (fs.insert (dest_path_of o d fp) (Entry.file c m)).lookup
              (dest_path_of o d fp) = some (Entry.file c m)
            exact FS.lookup_insert_self fs _ _
  · rw [organize_unsupported (bool_eq_false hsup)] at hcop
    exact Action.noConfusion hcop

/-! ### Further support lemmas -/

theorem str_ne_empty_of_data {s : String} (h : s.data ≠ []) : s ≠ "" :=
  fun he => h (congrArg String.data he)

theorem strLast?_strNat_ne_slash (n : Nat) : strLast? (strNat n) ≠ some '/' := by
  intro h
  obtain ⟨k, hk, he⟩ := mem_strNat_digit (mem_of_strLast? h)
  exact digitChar_ne_slash hk he.symm

theorem dest_dir_expand {o : Organizer} (d : DateTime)
    (h1 : o.output_path ≠ "") (h2 : strLast? o.output_path ≠ some '/') :
    dest_dir_of o d = o.output_path ++ "/" ++ strNat d.year ++ "/" ++ strftimeYMD d := by
  unfold dest_dir_of
  have hj1 : osPathJoin o.output_path (strNat d.year)
      = o.output_path ++ "/" ++ strNat d.year :=
    osPathJoin_eq (strHead?_strNat_ne_slash d.year) h1 h2
  rw [hj1]
  have hne : (o.output_path ++ "/" ++ strNat d.year).data ≠ [] :=
    append_data_ne_nil_right _ (strNat_data_ne_nil d.year)
  have hlast : strLast? (o.output_path ++ "/" ++ strNat d.year) ≠ some '/' := by
    rw [strLast?_append_right (strNat_data_ne_nil d.year)]
    exact strLast?_strNat_ne_slash d.year
  exact osPathJoin_eq (strftimeYMD_head_ne_slash d) (str_ne_empty_of_data hne) hlast

theorem lookup_none_pathExists {fs : FS} {p : String} (h : fs.lookup p = none) :
    fs.pathExists p = false := by
  unfold FS.pathExists
  rw [h]
  rfl

theorem lookup_some_pathExists {fs : FS} {p : String} {e : Entry}
    (h : fs.lookup p = some e) : fs.pathExists p = true := by
  unfold FS.pathExists
  rw [h]
  rfl

/-! ### EXIF tag priority -/

theorem extract_image_tag_original {fs : FS} {fp : String} {c : List Nat} {m : FileMeta}
    {tags : List (Nat × String)} {s : String}
    (hl : fs.lookup fp = some (Entry.file c m))
    (hi : imageExtensions.contains (strToLower (splitextExt fp)) = true)
    (he : m.exif = some tags)
    (ht : lookupTag tags 36867 = some s) :
    extractEmbeddedDate fs fp (strToLower (splitextExt fp)) = parseExifDate s := by
  have hi' : strToLower (splitextExt fp) ∈ imageExtensions := by simpa using hi
  simp [extractEmbeddedDate, hl, hi', he, ht]

theorem extract_image_tag_datetime {fs : FS} {fp : String} {c : List Nat} {m : FileMeta}
    {tags : List (Nat × String)} {s : String}
    (hl : fs.lookup fp = some (Entry.file c m))
    (hi : imageExtensions.contains (strToLower (splitextExt fp)) = true)
    (he : m.exif = some tags)
    (ht1 : lookupTag tags 36867 = none)
    (ht2 : lookupTag tags 306 = some s) :
    extractEmbeddedDate fs fp (strToLower (splitextExt fp)) = parseExifDate s := by
  have hi' : strToLower (splitextExt fp) ∈ imageExtensions := by simpa using hi
  simp [extractEmbeddedDate, hl, hi', he, ht1, ht2]

/-! ### Classification -/

theorem allExtensions_contains_eq (e : String) :
    allExtensions.contains e
      = (imageExtensions.contains e || videoExtensions.contains e) := by
  by_cases h1 : e ∈ imageExtensions <;> by_cases h2 : e ∈ videoExtensions <;>
    simp [allExtensions, h1, h2]

theorem classify_unsupported_contains {p : String}
    (h : classify p = MediaKind.unsupported) :
    allExtensions.contains (strToLower (splitextExt p)) = false := by
  rw [allExtensions_contains_eq]
  by_cases h1 : imageExtensions.contains (strToLower (splitextExt p)) = true
  · have : classify p = MediaKind.image := by
      have h1' : strToLower (splitextExt p) ∈ imageExtensions := by simpa using h1
      simp [classify, h1']
    rw [this] at h
    exact MediaKind.noConfusion h
  · by_cases h2 : videoExtensions.contains (strToLower (splitextExt p)) = true
    · have : classify p = MediaKind.video := by
        have h1' : strToLower (splitextExt p) ∉ imageExtensions := by
          intro hm
          exact h1 (by simpa using hm)
        have h2' : strToLower (splitextExt p) ∈ videoExtensions := by simpa using h2
        simp [classify, h1', h2']
      rw [this] at h
      exact MediaKind.noConfusion h
    · rw [bool_eq_false h1, bool_eq_false h2]
      rfl

/-! ### process_directory structure -/

theorem process_foldl_acc (o : Organizer) (l : List String) (fs : FS)
    (acc : List Action) :
    l.foldl
      (fun st file_path =>
        let r := organize_file o st.1 file_path
        (r.1, st.2 ++ [r.2]))
      (fs, acc)
      = ((l.foldl
          (fun st file_path =>
            let r := organize_file o st.1 file_path
            (r.1, st.2 ++ [r.2]))
          (fs, [])).1,
        acc ++ (l.foldl
          (fun st file_path =>
            let r := organize_file o st.1 file_path
            (r.1, st.2 ++ [r.2]))
          (fs, [])).2) := by
  induction l generalizing fs acc with
  | nil => simp
  | cons x xs ih =>
    rw [List.foldl_cons, List.foldl_cons]
    rw [ih (organize_file o fs x).1 (acc ++ [(organize_file o fs x).2]),
      ih (organize_file o fs x).1 ([] ++ [(organize_file o fs x).2])]
    simp

theorem process_directory_nil (o : Organizer) (fs : FS) :
    process_directory o fs [] = (fs, []) := rfl

theorem process_directory_cons (o : Organizer) (fs : FS) (x : String)
    (l : List String) :
    process_directory o fs (x :: l)
      = ((process_directory o (organize_file o fs x).1 l).1,
        (organize_file o fs x).2
          :: (process_directory o (organize_file o fs x).1 l).2) := by
  unfold process_directory
  rw [List.foldl_cons]
  rw [process_foldl_acc o l (organize_file o fs x).1 ([] ++ [(organize_file o fs x).2])]
  simp

theorem scan_preserves (o : Organizer) (files : List String) (fs : FS)
    {p : String} {e : Entry} (h : fs.lookup p = some e) :
    ((process_directory o fs files).1).lookup p = some e := by
  induction files generalizing fs with
  | nil => simpa using h
  | cons x xs ih =>
    rw [process_directory_cons]
    exact ih _ (organize_preserves o fs x h)

/-! ### Second-run lemmas -/

/-- Pointwise extension of filesystems: every visible entry of s is visible
unchanged in g (organize and the scans only ever add entries). -/
def FSext (g s : FS) : Prop := ∀ p e, s.lookup p = some e → g.lookup p = some e

theorem FSext_refl (s : FS) : FSext s s := fun _ _ h => h

theorem not_mem_ancestorPaths_init (p : String) :
    p ∉ ((List.range p.data.length).filter
        (fun i => p.data.getD i ' ' == '/')).map
      (fun i => String.mk (p.data.take i)) := by
  intro h
  rcases List.mem_map.mp h with ⟨i, hi, he⟩
  have h2 : i < p.data.length := List.mem_range.mp (List.mem_filter.mp hi).1
  have h3 : (String.mk (p.data.take i)).data.length = i := by
    show (p.data.take i).length = i
    rw [List.length_take]
    omega
  rw [he] at h3
  omega

theorem makedirs_failed_again {fs fs1 : FS} {dd : String} {e : String}
    (hmk : fs.makedirs dd = (fs1, some e)) (hdd0 : fs.lookup dd = none) :
    fs1.lookup dd = none ∧ fs1.makedirs dd = (fs1, some e) := by
  constructor
  · exact foldl_mkdirStep_append_last_none
      (((List.range dd.data.length).filter
          (fun i => dd.data.getD i ' ' == '/')).map
        (fun i => String.mk (dd.data.take i)))
      dd fs fs1 e (not_mem_ancestorPaths_init dd) hmk hdd0
  · exact foldl_mkdirStep_replay (ancestorPaths dd) fs fs1 e hmk

/-- Re-organizing a file whose first run in a smaller state succeeded
(did not report a failure) against any extension of the resulting state is
a pure no-op that cannot fail. -/
theorem organize_again {o : Organizer} {s s' g : FS} {fp : String} {a : Action}
    (hrun : organize_file o s fp = (s', a))
    (hna : ∀ m, a ≠ Action.Failed m)
    (hext : FSext g s') :
    ∃ b, organize_file o g fp = (g, b) ∧ ∀ m, b ≠ Action.Failed m := by
  have hext0 : FSext s' s := by
    intro p e h
    have hp := organize_preserves o s fp h
    rw [hrun] at hp
    exact hp
  have hextg : FSext g s := fun p e h => hext p e (hext0 p e h)
  by_cases hsup : allExtensions.contains (strToLower (splitextExt fp)) = true
  · cases hgd : get_file_date s fp with
    | error e =>
      rw [organize_failed_res hsup hgd] at hrun
      have ha : Action.Failed e = a := congrArg Prod.snd hrun
      exact absurd ha.symm (by intro hc; exact hna e hc)
    | ok d =>
      obtain ⟨c, m, hsrc⟩ := get_file_date_ok_src hgd
      have hsg : g.lookup fp = some (Entry.file c m) := hextg _ _ hsrc
      have hgd_g : get_file_date g fp = Except.ok d := by
        rw [get_file_date_congr (hsg.trans hsrc.symm)]
        exact hgd
      by_cases hexg : g.pathExists (dest_path_of o d fp) = true
      · exact ⟨Action.SkipExists, organize_skipExists hsup hgd_g hexg,
          fun m2 => Action.noConfusion⟩
      · by_cases hex : s.pathExists (dest_path_of o d fp) = true
        · -- first run skipped on an existing destination; it is still there in g
          obtain ⟨e2, he2⟩ := pathExists_true_lookup hex
          rw [organize_skipExists hsup hgd hex] at hrun
          have hs' : s = s' := congrArg Prod.fst hrun
          have hg2 : g.lookup (dest_path_of o d fp) = some e2 :=
            hext _ _ (hs' ▸ he2)
          rw [lookup_some_pathExists hg2] at hexg
          exact absurd rfl hexg
        · have hne := bool_eq_false hex
          by_cases hdry : o.dry_run = true
          · exact ⟨Action.WouldCopy,
              organize_wouldCopy hsup hgd_g (bool_eq_false hexg) hdry,
              fun m2 => Action.noConfusion⟩
          · -- first run copied; the copy is visible in g
            rw [organize_copy_eq hsup hgd hne (bool_eq_false hdry)] at hrun
            by_cases hb : s.pathExists (dest_dir_of o d) = false
            · rw [if_pos hb] at hrun
              rcases hmk : s.makedirs (dest_dir_of o d) with ⟨fsm, err⟩
              rw [hmk] at hrun
              cases err with
              | some e2 =>
                have ha : Action.Failed e2 = a := congrArg Prod.snd hrun
                exact absurd ha.symm (by intro hc; exact hna e2 hc)
              | none =>
                cases hc2 : fsm.copy2 fp (dest_path_of o d fp) with
                | error e2 =>
                  simp only [hc2] at hrun
                  have ha : Action.Failed e2 = a := congrArg Prod.snd hrun
                  exact absurd ha.symm (by intro hc; exact hna e2 hc)
                | ok fs2 =>
                  obtain ⟨c2, m2, hsrc2, rfl⟩ := copy2_ok_inv hc2
                  simp only [hc2] at hrun
                  have hs' : fsm.insert (dest_path_of o d fp) (Entry.file c2 m2)
                      = s' := congrArg Prod.fst hrun
                  have hgdst : g.lookup (dest_path_of o d fp)
                      = some (Entry.file c2 m2) := by
                    apply hext
                    rw [← hs']
                    exact FS.lookup_insert_self _ _ _
                  rw [lookup_some_pathExists hgdst] at hexg
                  exact absurd rfl hexg
            · rw [if_neg hb] at hrun
              cases hc2 : s.copy2 fp (dest_path_of o d fp) with
              | error e2 =>
                simp only [hc2] at hrun
                have ha : Action.Failed e2 = a := congrArg Prod.snd hrun
                exact absurd ha.symm (by intro hc; exact hna e2 hc)
              | ok fs2 =>
                obtain ⟨c2, m2, hsrc2, rfl⟩ := copy2_ok_inv hc2
                simp only [hc2] at hrun
                have hs' : s.insert (dest_path_of o d fp) (Entry.file c2 m2)
                    = s' := congrArg Prod.fst hrun
                have hgdst : g.lookup (dest_path_of o d fp)
                    = some (Entry.file c2 m2) := by
                  apply hext
                  rw [← hs']
                  exact FS.lookup_insert_self _ _ _
                rw [lookup_some_pathExists hgdst] at hexg
                exact absurd rfl hexg
  · exact ⟨Action.SkipUnsupported,
      organize_unsupported (bool_eq_false hsup), fun m2 => Action.noConfusion⟩

theorem scan_postcondition (o : Organizer) (files : List String) (fs : FS)
    (hok : ∀ a ∈ (process_directory o fs files).2, ∀ m, a ≠ Action.Failed m) :
    ∀ fp ∈ files, ∃ s s' a, organize_file o s fp = (s', a) ∧
      (∀ m, a ≠ Action.Failed m) ∧ FSext (process_directory o fs files).1 s' := by
  induction files generalizing fs with
  | nil => intro fp h; cases h
  | cons x xs ih =>
    rw [process_directory_cons] at hok ⊢
    intro fp hfp
    rcases List.mem_cons.mp hfp with rfl | hm
    · refine ⟨fs, (organize_file o fs fp).1, (organize_file o fs fp).2, rfl, ?_, ?_⟩
      · intro m
        exact hok _ (List.mem_cons_self _ _) m
      · intro p e h
        exact scan_preserves o xs _ h
    · have hok' : ∀ a ∈ (process_directory o (organize_file o fs x).1 xs).2,
          ∀ m, a ≠ Action.Failed m := by
        intro a ha m
        exact hok a (List.mem_cons_of_mem _ ha) m
      exact ih _ hok' fp hm

theorem scan_again (o : Organizer) (files : List String) (g : FS)
    (H : ∀ fp ∈ files, ∃ s s' a, organize_file o s fp = (s', a) ∧
      (∀ m, a ≠ Action.Failed m) ∧ FSext g s') :
    (process_directory o g files).1 = g ∧
      ∀ b ∈ (process_directory o g files).2, ∀ m, b ≠ Action.Failed m := by
  induction files with
  | nil => exact ⟨rfl, by intro b hb; cases hb⟩
  | cons x xs ih =>
    obtain ⟨s, s', a, h1, h2, h3⟩ := H x (List.mem_cons_self x xs)
    obtain ⟨b, hb1, hb2⟩ := organize_again h1 h2 h3
    rw [process_directory_cons, hb1]
    obtain ⟨ih1, ih2⟩ := ih (fun fp hfp => H fp (List.mem_cons_of_mem x hfp))
    constructor
    · exact ih1
    · intro cc hcc m
      rcases List.mem_cons.mp hcc with rfl | hm
      · exact hb2 m
      · exact ih2 cc hm m

/-- Complete description of a second organize invocation of the same path
against the state left behind by the first invocation: the state never
changes again, a first Copied outcome turns into SkipExists, and a
failure-free first run keeps the second run failure-free. -/
theorem organize_second_run (o : Organizer) (fs : FS) (fp : String) :
    ∃ fs1 a1 b, organize_file o fs fp = (fs1, a1) ∧
      organize_file o fs1 fp = (fs1, b) ∧
      (a1 = Action.Copied → b = Action.SkipExists) ∧
      ((∀ m, a1 ≠ Action.Failed m) → ∀ m, b ≠ Action.Failed m) := by
  by_cases hsup : allExtensions.contains (strToLower (splitextExt fp)) = true
  · cases hgd : get_file_date fs fp with
    | error e =>
      have heq := organize_failed_res (o := o) hsup hgd
      exact ⟨fs, Action.Failed e, Action.Failed e, heq, heq,
        fun hc => Action.noConfusion hc, fun hm => absurd rfl (hm e)⟩
    | ok d =>
      obtain ⟨c, m, hsrc⟩ := get_file_date_ok_src hgd
      by_cases hex : fs.pathExists (dest_path_of o d fp) = true
      · have heq := organize_skipExists (o := o) hsup hgd hex
        exact ⟨fs, Action.SkipExists, Action.SkipExists, heq, heq,
          fun hc => Action.noConfusion hc, fun _ m => Action.noConfusion⟩
      · have hne := bool_eq_false hex
        have hfpne : fp ≠ dest_path_of o d fp := by
          intro he
          rw [he, pathExists_false_lookup hne] at hsrc
          exact Option.noConfusion hsrc
        by_cases hdry : o.dry_run = true
        · have heq := organize_wouldCopy (o := o) hsup hgd hne hdry
          exact ⟨fs, Action.WouldCopy, Action.WouldCopy, heq, heq,
            fun hc => Action.noConfusion hc, fun _ m => Action.noConfusion⟩
        · have hdryF := bool_eq_false hdry
          have heq1 := organize_copy_eq (o := o) hsup hgd hne hdryF
          by_cases hb : fs.pathExists (dest_dir_of o d) = false
          · rw [if_pos hb] at heq1
            rcases hmk : fs.makedirs (dest_dir_of o d) with ⟨fsm, err⟩
            rw [hmk] at heq1
            have hsrc1 : fsm.lookup fp = some (Entry.file c m) := by
              have hp := makedirs_preserves fs (dest_dir_of o d) hsrc
              rw [hmk] at hp
              exact hp
            have hgd1 : get_file_date fsm fp = Except.ok d := by
              rw [get_file_date_congr (hsrc1.trans hsrc.symm)]
              exact hgd
            have hdst1 : fsm.lookup (dest_path_of o d fp) = none := by
              have hnm := foldl_mkdirStep_not_mem (ancestorPaths (dest_dir_of o d))
                (fs, none) (dest_path_not_mem_ancestors o d fp)
              have heqm : (ancestorPaths (dest_dir_of o d)).foldl mkdirStep (fs, none)
                  = fs.makedirs (dest_dir_of o d) := rfl
              rw [heqm, hmk] at hnm
              exact hnm.trans (pathExists_false_lookup hne)
            cases err with
            | some e =>
              have hfail := makedirs_failed_again hmk (pathExists_false_lookup hb)
              have heq2 := organize_copy_eq (o := o) hsup hgd1
                (lookup_none_pathExists hdst1) hdryF
              rw [if_pos (lookup_none_pathExists hfail.1), hfail.2] at heq2
              exact ⟨fsm, Action.Failed e, Action.Failed e, heq1, heq2,
                fun hc => Action.noConfusion hc, fun hm => absurd rfl (hm e)⟩
            | none =>
              have hdd1 : fsm.lookup (dest_dir_of o d) = some Entry.dir := by
                have h2 : ((ancestorPaths (dest_dir_of o d)).foldl mkdirStep
                    (fs, none)).2 = none := by
                  have heqm : (ancestorPaths (dest_dir_of o d)).foldl mkdirStep
                      (fs, none) = fs.makedirs (dest_dir_of o d) := rfl
                  rw [heqm, hmk]
                have h3 := foldl_mkdirStep_none_dirs (ancestorPaths (dest_dir_of o d))
                  fs h2 (dest_dir_of o d) (self_mem_ancestorPaths _)
                  (dest_dir_ne_empty o d)
                have heqm : (ancestorPaths (dest_dir_of o d)).foldl mkdirStep
                    (fs, none) = fs.makedirs (dest_dir_of o d) := rfl
                rw [heqm, hmk] at h3
                exact h3
              have heq2 := organize_copy_eq (o := o) hsup hgd1
                (lookup_none_pathExists hdst1) hdryF
              rw [if_neg (by rw [lookup_some_pathExists hdd1]; exact fun hc =>
                Bool.noConfusion hc)] at heq2
              cases hc2 : fsm.copy2 fp (dest_path_of o d fp) with
              | error e =>
                simp only [hc2] at heq1 heq2
                exact ⟨fsm, Action.Failed e, Action.Failed e, heq1, heq2,
                  fun hc => Action.noConfusion hc, fun hm => absurd rfl (hm e)⟩
              | ok fs2 =>
                obtain ⟨c2, m2, hsrc2, rfl⟩ := copy2_ok_inv hc2
                simp only [hc2] at heq1
                have hgdst : (fsm.insert (dest_path_of o d fp)
                    (Entry.file c2 m2)).lookup (dest_path_of o d fp)
                    = some (Entry.file c2 m2) := FS.lookup_insert_self _ _ _
                have hgd2 : get_file_date
                    (fsm.insert (dest_path_of o d fp) (Entry.file c2 m2)) fp
                    = Except.ok d := by
                  have hlk : (fsm.insert (dest_path_of o d fp)
                      (Entry.file c2 m2)).lookup fp = fs.lookup fp := by
                    rw [FS.lookup_insert_ne fsm _ hfpne, hsrc1, hsrc]
                  rw [get_file_date_congr hlk]
                  exact hgd
                have heq2 := organize_skipExists (o := o) hsup hgd2
                  (lookup_some_pathExists hgdst)
                exact ⟨fsm.insert (dest_path_of o d fp) (Entry.file c2 m2),
                  Action.Copied, Action.SkipExists, heq1, heq2,
                  fun _ => rfl, fun _ m2' => Action.noConfusion⟩
          · rw [if_neg hb] at heq1
            cases hc2 : fs.copy2 fp (dest_path_of o d fp) with
            | error e =>
              simp only [hc2] at heq1
              exact ⟨fs, Action.Failed e, Action.Failed e, heq1, heq1,
                fun hc => Action.noConfusion hc, fun hm => absurd rfl (hm e)⟩
            | ok fs2 =>
              obtain ⟨c2, m2, hsrc2, rfl⟩ := copy2_ok_inv hc2
              simp only [hc2] at heq1
              have hgdst : (fs.insert (dest_path_of o d fp)
                  (Entry.file c2 m2)).lookup (dest_path_of o d fp)
                  = some (Entry.file c2 m2) := FS.lookup_insert_self _ _ _
              have hgd2 : get_file_date
                  (fs.insert (dest_path_of o d fp) (Entry.file c2 m2)) fp
                  = Except.ok d := by
                have hlk : (fs.insert (dest_path_of o d fp)
                    (Entry.file c2 m2)).lookup fp = fs.lookup fp :=
                  FS.lookup_insert_ne fs _ hfpne
                rw [get_file_date_congr hlk]
                exact hgd
              have heq2 := organize_skipExists (o := o) hsup hgd2
                (lookup_some_pathExists hgdst)
              exact ⟨fs.insert (dest_path_of o d fp) (Entry.file c2 m2),
                Action.Copied, Action.SkipExists, heq1, heq2,
                fun _ => rfl, fun _ m2' => Action.noConfusion⟩
  · have heq : organize_file o fs fp = (fs, Action.SkipUnsupported) :=
      organize_unsupported (bool_eq_false hsup)
    exact ⟨fs, Action.SkipUnsupported, Action.SkipUnsupported, heq, heq,
      fun hc => Action.noConfusion hc, fun _ m => Action.noConfusion⟩

/-! ## Claims -/

/-- Claim C1: when a regular file already sits at the computed destination
path of a supported source file, organize_file returns SkipExists and leaves
the filesystem untouched (no copy, no exception); moreover the engine never
overwrites or removes any existing entry of the tree, whatever branch it
takes. -/
theorem c1_no_clobber (o : Organizer) (fs : FS) (fp : String) :
    (∀ (d : DateTime) (c : List Nat) (m : FileMeta),
        allExtensions.contains (strToLower (splitextExt fp)) = true →
        get_file_date fs fp = Except.ok d →
        fs.lookup (dest_path_of o d fp) = some (Entry.file c m) →
        organize_file o fs fp = (fs, Action.SkipExists)) ∧
    (∀ p e, fs.lookup p = some e →
        ((organize_file o fs fp).1).lookup p = some e) := by
  constructor
  · intro d c m hsup hok hdst
    exact organize_skipExists hsup hok (lookup_some_pathExists hdst)
  · intro p e h
    exact organize_preserves o fs fp h

/-- Witness for C1 at a concrete filesystem with an occupied destination. -/
theorem c1_witness :
    organize_file wOrg wFSdst "in/a.jpg" = (wFSdst, Action.SkipExists) ∧
    ((organize_file wOrg wFSdst "in/a.jpg").1).lookup "out/2023/2023-06-15/a.jpg"
      = some (Entry.file [9] wMeta) :=
  ⟨(c1_no_clobber wOrg wFSdst "in/a.jpg").1 ⟨2023, 6, 15, 10, 0, 0⟩ [9] wMeta
      (by decide) (by decide) (by decide),
    (c1_no_clobber wOrg wFSdst "in/a.jpg").2 "out/2023/2023-06-15/a.jpg"
      (Entry.file [9] wMeta) (by decide)⟩

/-- Claim C2: organize_file is a pure function of the organizer, tree and
path (determinism), and a second invocation against the tree the first run
produced changes nothing: a first Copied becomes SkipExists, a failure-free
first run keeps the second failure-free, and a failure-free bulk scan run a
second time over the same file list adds nothing and reports no failure. -/
theorem c2_idempotent_second_run (o : Organizer) (fs : FS) (fp : String)
    (files : List String) :
    (organize_file o (organize_file o fs fp).1 fp).1 = (organize_file o fs fp).1 ∧
    ((organize_file o fs fp).2 = Action.Copied →
      (organize_file o (organize_file o fs fp).1 fp).2 = Action.SkipExists) ∧
    ((∀ m, (organize_file o fs fp).2 ≠ Action.Failed m) →
      ∀ m, (organize_file o (organize_file o fs fp).1 fp).2 ≠ Action.Failed m) ∧
    ((∀ a ∈ (process_directory o fs files).2, ∀ m, a ≠ Action.Failed m) →
      (process_directory o (process_directory o fs files).1 files).1
          = (process_directory o fs files).1 ∧
        ∀ b ∈ (process_directory o (process_directory o fs files).1 files).2,
          ∀ m, b ≠ Action.Failed m) := by
  obtain ⟨fs1, a1, b, h1, h2, h3, h4⟩ := organize_second_run o fs fp
  refine ⟨?_, ?_, ?_,
    fun hok => scan_again o files _ (scan_postcondition o files fs hok)⟩
  · simp only [h1, h2]
  · simp only [h1, h2]
    exact h3
  · simp only [h1, h2]
    exact h4

/-- Witness for C2: a concrete copy followed by a SkipExists, and an
unchanged tree after a repeated bulk scan. -/
theorem c2_witness :
    (organize_file wOrg (organize_file wOrg wFS "in/a.jpg").1 "in/a.jpg").2
        = Action.SkipExists ∧
    (process_directory wOrg (process_directory wOrg wFS ["in/a.jpg"]).1
        ["in/a.jpg"]).1 = (process_directory wOrg wFS ["in/a.jpg"]).1 := by
  constructor
  · exact (c2_idempotent_second_run wOrg wFS "in/a.jpg" ["in/a.jpg"]).2.1 (by decide)
  · refine ((c2_idempotent_second_run wOrg wFS "in/a.jpg" ["in/a.jpg"]).2.2.2 ?_).1
    intro a ha m
    have hacts : (process_directory wOrg wFS ["in/a.jpg"]).2 = [Action.Copied] := by
      decide
    rw [hacts] at ha
    rcases List.mem_singleton.mp ha with rfl
    exact Action.noConfusion

/-- Claim C3: when no embedded date can be extracted from a source file, the
resolved date is its modification timestamp, and (for a supported file with
a free, unblocked destination, outside dry-run) the file is copied to the
destination derived from that timestamp. -/
theorem c3_mtime_fallback (o : Organizer) (fs : FS) (fp : String)
    (c : List Nat) (m : FileMeta)
    (h1 : fs.lookup fp = some (Entry.file c m))
    (h2 : extractEmbeddedDate fs fp (strToLower (splitextExt fp)) = none) :
    get_file_date fs fp = Except.ok m.mtime ∧
    (allExtensions.contains (strToLower (splitextExt fp)) = true →
      fs.pathExists (dest_path_of o m.mtime fp) = false →
      o.dry_run = false →
      (∀ q ∈ ancestorPaths (dest_dir_of o m.mtime), ∀ c2 m2,
        fs.lookup q ≠ some (Entry.file c2 m2)) →
      (organize_file o fs fp).2 = Action.Copied ∧
      ((organize_file o fs fp).1).lookup (dest_path_of o m.mtime fp)
        = some (Entry.file c m)) := by
  have hok := get_file_date_fallback h1 h2
  refine ⟨hok, fun hsup hne hdry hclean => ?_⟩
  obtain ⟨fs1, heq, hpres, hnone⟩ := organize_copy_success hsup h1 hok hne hdry hclean
  rw [heq]
  exact ⟨rfl, FS.lookup_insert_self _ _ _⟩

/-- Witness for C3: a file without metadata modified 2023-06-15T10:00:00
lands at out/2023/2023-06-15/a.jpg. -/
theorem c3_witness :
    get_file_date wFS "in/a.jpg" = Except.ok ⟨2023, 6, 15, 10, 0, 0⟩ ∧
    ((organize_file wOrg wFS "in/a.jpg").1).lookup "out/2023/2023-06-15/a.jpg"
      = some (Entry.file [1, 2] wMeta) := by
  have h := c3_mtime_fallback wOrg wFS "in/a.jpg" [1, 2] wMeta (by decide) (by decide)
  refine ⟨h.1, ?_⟩
  have hclean : ∀ q ∈ ancestorPaths (dest_dir_of wOrg wMeta.mtime), ∀ c2 m2,
      wFS.lookup q ≠ some (Entry.file c2 m2) := by
    have hnone : ∀ q ∈ ancestorPaths (dest_dir_of wOrg wMeta.mtime),
        wFS.lookup q = none := by decide
    intro q hq c2 m2 hcon
    rw [hnone q hq] at hcon
    exact Option.noConfusion hcon
  have h2 := (h.2 (by decide) (by decide) rfl hclean).2
  have hpath : dest_path_of wOrg wMeta.mtime "in/a.jpg"
      = "out/2023/2023-06-15/a.jpg" := by decide
  rw [hpath] at h2
  exact h2

/-- Claim C4: for an image file, tag 36867 (DateTimeOriginal) takes priority
over tag 306 (DateTime) when both are present, and tag 306 is consulted only
when 36867 is absent. -/
theorem c4_exif_priority (fs : FS) (fp : String) (c : List Nat) (m : FileMeta)
    (tags : List (Nat × String))
    (hl : fs.lookup fp = some (Entry.file c m))
    (hi : imageExtensions.contains (strToLower (splitextExt fp)) = true)
    (he : m.exif = some tags) :
    (∀ s1 d1 s2, lookupTag tags 36867 = some s1 → parseExifDate s1 = some d1 →
      lookupTag tags 306 = some s2 → get_file_date fs fp = Except.ok d1) ∧
    (∀ s2 d2, lookupTag tags 36867 = none → lookupTag tags 306 = some s2 →
      parseExifDate s2 = some d2 → get_file_date fs fp = Except.ok d2) := by
  constructor
  · intro s1 d1 s2 ht1 hp1 _
    exact get_file_date_of_extract_some
      ((extract_image_tag_original hl hi he ht1).trans hp1)
  · intro s2 d2 ht1 ht2 hp2
    exact get_file_date_of_extract_some
      ((extract_image_tag_datetime hl hi he ht1 ht2).trans hp2)

/-- Witness for C4: with both tags present the resolved date is the
DateTimeOriginal value; without 36867 the DateTime value is used. -/
theorem c4_witness :
    get_file_date wFSboth "in/b.jpg" = Except.ok ⟨2022, 1, 5, 8, 30, 0⟩ ∧
    get_file_date wFSdt "in/c.jpg" = Except.ok ⟨2020, 1, 1, 0, 0, 0⟩ :=
  ⟨(c4_exif_priority wFSboth "in/b.jpg" [3] wMetaBoth
      [(36867, "2022:01:05 08:30:00"), (306, "2020:01:01 00:00:00")]
      (by decide) (by decide) (by decide)).1
      "2022:01:05 08:30:00" ⟨2022, 1, 5, 8, 30, 0⟩ "2020:01:01 00:00:00"
      (by decide) (by decide) (by decide),
    (c4_exif_priority wFSdt "in/c.jpg" [4] wMetaDT
      [(306, "2020:01:01 00:00:00")] (by decide) (by decide) (by decide)).2
      "2020:01:01 00:00:00" ⟨2020, 1, 1, 0, 0, 0⟩
      (by decide) (by decide) (by decide)⟩

/-- Claim C5: the destination path of a file resolved to date d is
output_path/str(d.year)/YYYY-MM-DD/basename, the basename kept verbatim with
its case and extension, and a Copied outcome stores the source entry exactly
at that path. -/
theorem c5_destination_shape (o : Organizer) (fs : FS) (fp : String)
    (d : DateTime)
    (h1 : o.output_path ≠ "") (h2 : strLast? o.output_path ≠ some '/')
    (hok : get_file_date fs fp = Except.ok d) :
    dest_path_of o d fp
      = o.output_path ++ "/" ++ strNat d.year ++ "/" ++ strftimeYMD d ++ "/"
        ++ strBasename fp ∧
    ((organize_file o fs fp).2 = Action.Copied →
      ∃ c m, fs.lookup fp = some (Entry.file c m) ∧
        ((organize_file o fs fp).1).lookup (dest_path_of o d fp)
          = some (Entry.file c m)) := by
  constructor
  · rw [dest_path_eq, dest_dir_expand d h1 h2]
  · intro hcop
    exact organize_copied_lookup hcop hok

/-- Witness for C5: an upper-case basename below a subdirectory is preserved
verbatim at out/2023/2023-06-15/MyPhoto.JPG. -/
theorem c5_witness :
    dest_path_of wOrg ⟨2023, 6, 15, 10, 0, 0⟩ "in/sub/MyPhoto.JPG"
      = "out" ++ "/" ++ strNat 2023 ++ "/" ++ strftimeYMD ⟨2023, 6, 15, 10, 0, 0⟩
        ++ "/" ++ strBasename "in/sub/MyPhoto.JPG" ∧
    ((organize_file wOrg wFSupper "in/sub/MyPhoto.JPG").1).lookup
        "out/2023/2023-06-15/MyPhoto.JPG" = some (Entry.file [7] wMeta) := by
  have h := c5_destination_shape wOrg wFSupper "in/sub/MyPhoto.JPG"
    ⟨2023, 6, 15, 10, 0, 0⟩ (by decide) (by decide) (by decide)
  refine ⟨h.1, ?_⟩
  obtain ⟨c, m, hsrc, hdst⟩ := h.2 (by decide)
  have hfix : Entry.file [7] wMeta = Entry.file c m :=
    Option.some.inj
      ((by decide :
        wFSupper.lookup "in/sub/MyPhoto.JPG" = some (Entry.file [7] wMeta)).symm.trans
        hsrc)
  cases hfix
  have hpath : dest_path_of wOrg (⟨2023, 6, 15, 10, 0, 0⟩ : DateTime)
      "in/sub/MyPhoto.JPG" = "out/2023/2023-06-15/MyPhoto.JPG" := by decide
  rw [hpath] at hdst
  exact hdst

/-- Claim C6: with dry_run set, organize_file and a whole bulk scan leave
the filesystem exactly as it was: no directory is created and no file is
copied, however many files are processed. -/
theorem c6_dry_run_pure (o : Organizer) (fs : FS) (fp : String)
    (files : List String) (hdry : o.dry_run = true) :
    (organize_file o fs fp).1 = fs ∧ (process_directory o fs files).1 = fs := by
  refine ⟨organize_dry_state o fs fp hdry, ?_⟩
  induction files generalizing fs with
  | nil => rfl
  | cons x xs ih =>
    rw [process_directory_cons]
    show (process_directory o (organize_file o fs x).1 xs).1 = fs
    rw [organize_dry_state o fs x hdry]
    exact ih _

/-- Witness for C6 on a concrete dry-run scan of two files. -/
theorem c6_witness :
    (organize_file wOrgDry wFS "in/a.jpg").1 = wFS ∧
    (process_directory wOrgDry wFS ["in/a.jpg", "in/notes.txt"]).1 = wFS :=
  c6_dry_run_pure wOrgDry wFS "in/a.jpg" ["in/a.jpg", "in/notes.txt"] rfl

/-- Claim C7: classification is a total function of the path string alone: a
missing extension classifies as Unsupported, the lookup is case-insensitive
(only the lower-cased extension matters), and an unsupported path makes
organize_file terminate at once with no tree change and no date
resolution. -/
theorem c7_classifier_total (o : Organizer) (fs : FS) (fp p q : String) :
    (splitextExt fp = "" → classify fp = MediaKind.unsupported) ∧
    (strToLower (splitextExt p) = strToLower (splitextExt q) →
      classify p = classify q) ∧
    (classify fp = MediaKind.unsupported →
      organize_file o fs fp = (fs, Action.SkipUnsupported)) := by
  refine ⟨?_, ?_, ?_⟩
  · intro h
    simp only [classify, h]
    rfl
  · intro h
    simp only [classify, h]
  · intro h
    exact organize_unsupported (classify_unsupported_contains h)

/-- Witness for C7: a bare name, a case-insensitive pair, and a .txt no-op. -/
theorem c7_witness :
    classify "README" = MediaKind.unsupported ∧
    classify "a/photo.JPG" = classify "b/image.jpg" ∧
    organize_file wOrg wFS "in/notes.txt" = (wFS, Action.SkipUnsupported) :=
  ⟨(c7_classifier_total wOrg wFS "README" "x" "y").1 (by decide),
    (c7_classifier_total wOrg wFS "z" "a/photo.JPG" "b/image.jpg").2.1 (by decide),
    (c7_classifier_total wOrg wFS "in/notes.txt" "x" "y").2.2 (by decide)⟩

/-- Counterexample to C8 as stated: at a concrete input whose destination
directory path is occupied by a regular file, date resolution succeeds and
the organize operation nevertheless fails outright (the copy step raises
NotADirectoryError, caught and reported at line 127), so a file-access
failure during date resolution is not the only way organize fails. -/
theorem c8_counterexample :
    (∃ d, get_file_date wFSblocked "in/a.jpg" = Except.ok d) ∧
    (organize_file wOrg wFSblocked "in/a.jpg").2
      = Action.Failed "NotADirectoryError" :=
  ⟨⟨⟨2023, 6, 15, 10, 0, 0⟩, by decide⟩, by decide⟩

/-- Claim C8 (amended): date resolution never fails for an accessible
regular file; an inaccessible file surfaces as an error propagated out of
get_file_date rather than a null date, and that propagated error makes
organize_file report Failed; and a resolution failure is the only way
organize_file fails for a supported file provided no regular file occupies
the destination directory chain (otherwise the directory-creation or copy
step fails as well, as the counterexample shows). -/
theorem c8_resolution_failure (o : Organizer) (fs fs2 : FS) (fp fp2 : String) :
    (∀ c m, fs.lookup fp = some (Entry.file c m) →
      ∃ d, get_file_date fs fp = Except.ok d) ∧
    (fs2.lookup fp2 = none →
      get_file_date fs2 fp2 = Except.error "OSError") ∧
    (∀ e, allExtensions.contains (strToLower (splitextExt fp)) = true →
      get_file_date fs fp = Except.error e →
      organize_file o fs fp = (fs, Action.Failed e)) ∧
    (∀ d, allExtensions.contains (strToLower (splitextExt fp)) = true →
      get_file_date fs fp = Except.ok d →
      (∀ q ∈ ancestorPaths (dest_dir_of o d), ∀ c2 m2,
        fs.lookup q ≠ some (Entry.file c2 m2)) →
      ∀ m, (organize_file o fs fp).2 ≠ Action.Failed m) := by
  refine ⟨fun c m h => get_file_date_ok_of_file h,
    fun h => get_file_date_error_of_missing h,
    fun e hsup he => organize_failed_res hsup he,
    fun d hsup hok hclean m hcon => ?_⟩
  obtain ⟨c, m2, hsrc⟩ := get_file_date_ok_src hok
  by_cases hex : fs.pathExists (dest_path_of o d fp) = true
  · rw [organize_skipExists hsup hok hex] at hcon
    exact Action.noConfusion hcon
  · have hne := bool_eq_false hex
    by_cases hdry : o.dry_run = true
    · rw [organize_wouldCopy hsup hok hne hdry] at hcon
      exact Action.noConfusion hcon
    · obtain ⟨fs1, heq, hpres, hnone⟩ :=
        organize_copy_success hsup hsrc hok hne (bool_eq_false hdry) hclean
      rw [heq] at hcon
      exact Action.noConfusion hcon

/-- Witness for C8 (amended) at an accessible file, a missing file, and a
clean destination tree. -/
theorem c8_witness :
    (∃ d, get_file_date wFS "in/a.jpg" = Except.ok d) ∧
    get_file_date wFS "in/gone.jpg" = Except.error "OSError" ∧
    (organize_file wOrg wFS "in/a.jpg").2 ≠ Action.Failed "OSError" := by
  have h := c8_resolution_failure wOrg wFS wFS "in/a.jpg" "in/gone.jpg"
  refine ⟨h.1 [1, 2] wMeta (by decide), h.2.1 (by decide), ?_⟩
  have hclean : ∀ q ∈ ancestorPaths (dest_dir_of wOrg ⟨2023, 6, 15, 10, 0, 0⟩),
      ∀ c2 m2, wFS.lookup q ≠ some (Entry.file c2 m2) := by
    have hnone : ∀ q ∈ ancestorPaths (dest_dir_of wOrg ⟨2023, 6, 15, 10, 0, 0⟩),
        wFS.lookup q = none := by decide
    intro q hq c2 m2 hcon
    rw [hnone q hq] at hcon
    exact Option.noConfusion hcon
  exact h.2.2.2 ⟨2023, 6, 15, 10, 0, 0⟩ (by decide) (by decide) hclean "OSError"

/-- Claim C9: a failure on one file never aborts the scan: organize_file
always returns an outcome instead of propagating, so a directory scan
produces exactly one outcome per file — including after a Failed outcome,
the remaining files are still handed to the engine. -/
theorem c9_per_file_isolation (o : Organizer) (fs : FS) (files : List String)
    (fp : String) (rest : List String) :
    ((process_directory o fs files).2).length = files.length ∧
    process_directory o fs (fp :: rest)
      = ((process_directory o (organize_file o fs fp).1 rest).1,
        (organize_file o fs fp).2
          :: (process_directory o (organize_file o fs fp).1 rest).2) := by
  constructor
  · have h := process_foldl_length o files fs []
    simpa [process_directory] using h
  · exact process_directory_cons o fs fp rest

/-- Claim C10: the destination check is os.path.exists, so any entry at the
destination path — here a directory, not a regular file — makes
organize_file skip with SkipExists, copying nothing and raising nothing. -/
theorem c10_exists_check_any_entry (o : Organizer) (fs : FS) (fp : String)
    (d : DateTime)
    (hsup : allExtensions.contains (strToLower (splitextExt fp)) = true)
    (hok : get_file_date fs fp = Except.ok d)
    (hdst : fs.lookup (dest_path_of o d fp) = some Entry.dir) :
    organize_file o fs fp = (fs, Action.SkipExists) :=
  organize_skipExists hsup hok (lookup_some_pathExists hdst)

/-- Witness for C10: a directory at the destination path triggers the same
SkipExists outcome. -/
theorem c10_witness :
    organize_file wOrg wFSdstDir "in/a.jpg" = (wFSdstDir, Action.SkipExists) :=
  c10_exists_check_any_entry wOrg wFSdstDir "in/a.jpg" ⟨2023, 6, 15, 10, 0, 0⟩
    (by decide) (by decide) (by decide)

end PhotoOrg
